import Mathlib

/-!
Verification of the FG-OS memory-management core (src/kernel/mm/{pmm,vmm,heap}.c)
against its natural-language specification.

The C sources are shallowly embedded: every static/global mutable state
becomes an explicit state structure, machine integers become `Nat` with
explicit `% 2^64` where 64-bit wraparound matters, and each C function
becomes a pure Lean function from state (and arguments) to state (and
results).  Console diagnostics (KERROR/KWARN) are modelled where a claim
refers to them, as a `Bool` "a diagnostic line was emitted" component of
the return value.  Memory itself is modelled at the granularity the code
manages it: the frame bitmap as a list of bytes, page tables as nested
finite maps, and the heap arena as the list of block headers the code
maintains (payload byte contents are not modelled; a header read at an
address where no genuine header lives never matches the magic sentinel).
-/

namespace FGOS

/-- 2^64, the modulus of the C `uint64_t` / `size_t` arithmetic. -/
def U64 : Nat := 18446744073709551616

/-- `PAGE_SIZE` (types.h line 113): 4 KiB. -/
def PAGE_SIZE : Nat := 4096

/-- 64-bit wrapping addition (`uint64_t`/`size_t`). -/
def add64 (a b : Nat) : Nat := (a + b) % U64

/-- 64-bit wrapping subtraction. -/
def sub64 (a b : Nat) : Nat := (a % U64 + U64 - b % U64) % U64

/-! ## Physical memory manager (src/kernel/mm/pmm.c) -/

/-- `MEMORY_TYPE_AVAILABLE` (memory.h line 18). -/
def MEMORY_TYPE_AVAILABLE : Nat := 1

/-- `struct memory_region` (types.h line 212).  Only the fields `pmm_init`
reads are retained: `start`, `size` and `type` (the `end`, `flags` and
`name` fields are never read by the memory manager). -/
structure MemRegion where
  start : Nat
  size : Nat
  rtype : Nat
  deriving Repr, DecidableEq

/-- The PMM module state: the byte array `page_bitmap` (one bit per frame,
set = allocated), `total_pages` and `free_pages` (pmm.c lines 19-22).
The derived `pmm_stats` fields (`used_physical` etc.) are write-only
mirrors of these and are omitted. -/
structure PMMState where
  bitmap : List Nat
  total_pages : Nat
  free_pages : Nat
  deriving Repr, DecidableEq

/-- Setting bit `bit` of a byte: `byte |= (1 << bit)` (pmm.c line 118). -/
def setBit8 (byte bit : Nat) : Nat := byte ||| (1 <<< bit)

/-- Clearing bit `bit` of a byte: `byte &= ~(1 << bit)` on `uint8_t`
(pmm.c line 137); the complement is taken at width 8. -/
def clearBit8 (byte bit : Nat) : Nat := byte &&& (0xFF ^^^ (1 <<< bit))

/-- `pmm_mark_page_used` (pmm.c lines 110-123). -/
def pmm_mark_page_used (s : PMMState) (page : Nat) : PMMState :=
  if page ≥ s.total_pages then s
  else
    let byteIndex := page / 8
    let bitIndex := page % 8
    let b := s.bitmap.getD byteIndex 0
    if b.testBit bitIndex then s
    else { s with bitmap := s.bitmap.set byteIndex (setBit8 b bitIndex),
                  free_pages := s.free_pages - 1 }

/-- `pmm_mark_page_free` (pmm.c lines 129-142). -/
def pmm_mark_page_free (s : PMMState) (page : Nat) : PMMState :=
  if page ≥ s.total_pages then s
  else
    let byteIndex := page / 8
    let bitIndex := page % 8
    let b := s.bitmap.getD byteIndex 0
    if b.testBit bitIndex then
      { s with bitmap := s.bitmap.set byteIndex (clearBit8 b bitIndex),
               free_pages := s.free_pages + 1 }
    else s

/-- `pmm_is_page_free` (pmm.c lines 149-156). -/
def pmm_is_page_free (s : PMMState) (page : Nat) : Bool :=
  if page ≥ s.total_pages then false
  else !((s.bitmap.getD (page / 8) 0).testBit (page % 8))

/-- The `for (page = start_page; page < start_page + page_count; page++)`
loop of `pmm_init` (pmm.c lines 89-91), by remaining count. -/
def markRangeFree (s : PMMState) (start : Nat) : Nat → PMMState
  | 0 => s
  | n + 1 => markRangeFree (pmm_mark_page_free s start) (start + 1) n

/-- The region loop of `pmm_init` (pmm.c lines 84-93): mark the frames of
each available region free. -/
def markRegionsFree (s : PMMState) : List MemRegion → PMMState
  | [] => s
  | r :: rest =>
    let s' := if r.rtype = MEMORY_TYPE_AVAILABLE then
        markRangeFree s (r.start / PAGE_SIZE) (r.size / PAGE_SIZE)
      else s
    markRegionsFree s' rest

/-- Sum of the sizes of the available regions, accumulated in a
`uint64_t` as `total_memory += size` (pmm.c lines 57-62): each addition
wraps mod 2^64.  (The per-step wrap is associative modulo 2^64, so the
accumulation order does not change the value.) -/
def availableMemory : List MemRegion → Nat
  | [] => 0
  | r :: rest =>
    add64 (if r.rtype = MEMORY_TYPE_AVAILABLE then r.size else 0) (availableMemory rest)

/-- `pmm_init` (pmm.c lines 39-104).  A null `regions` pointer or zero
`count` is the empty list here; the fixed bitmap backing store at 1 MiB is
always non-null, so after the argument check the function always succeeds.
Returns `none` for the `-1` error return and `some` state for `0`. -/
def pmm_init (regions : List MemRegion) : Option PMMState :=
  if regions = [] then none
  else
    let kept := regions.take 32
    let total_memory := availableMemory kept
    let total_pages := total_memory / PAGE_SIZE
    let bitmap_size := (total_pages + 7) / 8
    let s0 : PMMState :=
      { bitmap := List.replicate bitmap_size 0xFF
        total_pages := total_pages
        free_pages := 0 }
    some (markRegionsFree s0 kept)

/-- `pmm_alloc_page` (pmm.c lines 162-185): linear scan from page 0 for
the first free page. -/
def findFreePage (s : PMMState) : Nat → Option Nat
  | 0 => none
  | n + 1 =>
    let page := s.total_pages - (n + 1)
    if pmm_is_page_free s page then some page else findFreePage s n

/-- The fixed address of the bitmap backing store:
`page_bitmap = (uint8_t*)0x100000` (pmm.c line 73).  Bitmap byte `i`
lives at physical address `PMM_BITMAP_BASE + i`. -/
def PMM_BITMAP_BASE : Nat := 0x100000

/-- The effect of `memory_set((void*)addr, 0, len)` on the bitmap bytes:
the bitmap byte at position `pos + i` is zeroed when its physical
address falls inside `[addr, addr + len)`.  The bitmap is ordinary
physical memory at `PMM_BITMAP_BASE`, so a zero-fill of an allocated
frame that overlaps it wipes those bitmap bytes. -/
def zeroFillBitmap (addr len : Nat) : Nat → List Nat → List Nat
  | _, [] => []
  | pos, b :: rest =>
    (if addr ≤ pos ∧ pos < addr + len then 0 else b) ::
      zeroFillBitmap addr len (pos + 1) rest

/-- `pmm_alloc_page` (pmm.c lines 162-185).  Returns the physical address
(0 is the failure sentinel) and the new state.  The frame is marked used,
then zero-filled (`memory_set((void*)physical_addr, 0, PAGE_SIZE)`,
pmm.c line 177); the zero-fill is applied to any bitmap bytes the frame
overlaps, since the bitmap itself lives at physical 0x100000. -/
def pmm_alloc_page (s : PMMState) : Nat × PMMState :=
  if s.free_pages = 0 then (0, s)
  else
    match findFreePage s s.total_pages with
    | some page =>
      let s1 := pmm_mark_page_used s page
      let addr := page * PAGE_SIZE
      (addr, { s1 with bitmap := zeroFillBitmap addr PAGE_SIZE PMM_BITMAP_BASE s1.bitmap })
    | none => (0, s)

/-- `pmm_free_page` (pmm.c lines 191-206).  The `Bool` records whether a
KWARN diagnostic was emitted (both early-return paths warn). -/
def pmm_free_page (s : PMMState) (page : Nat) : Bool × PMMState :=
  if page = 0 ∨ page % PAGE_SIZE ≠ 0 then (true, s)
  else
    let pageNumber := page / PAGE_SIZE
    if pmm_is_page_free s pageNumber then (true, s)
    else (false, pmm_mark_page_free s pageNumber)

/-- Number of clear bits among the low 8 bits of a byte. -/
def clearBitsByte (b : Nat) : Nat :=
  (List.range 8).countP (fun i => !(b.testBit i))

/-- Number of clear bits in the whole bitmap. -/
def clearBits (bm : List Nat) : Nat := (bm.map clearBitsByte).sum

/-- Number of pages the allocator currently reports free. -/
def countFree (s : PMMState) : Nat :=
  (List.range s.total_pages).countP (fun p => pmm_is_page_free s p)

/-! ### Helper lemmas: lists and bit counting -/

lemma getD_set_self (l : List Nat) (i v : Nat) (h : i < l.length) :
    (l.set i v).getD i 0 = v := by
  induction l generalizing i with
  | nil => simp at h
  | cons a t ih =>
    cases i with
    | zero => simp [List.set]
    | succ j => simpa [List.set] using ih j (by simpa using h)

lemma getD_set_other (l : List Nat) (i j v : Nat) (h : i ≠ j) :
    (l.set i v).getD j 0 = l.getD j 0 := by
  induction l generalizing i j with
  | nil => simp [List.set]
  | cons a t ih =>
    cases i with
    | zero =>
      cases j with
      | zero => exact absurd rfl h
      | succ k => simp [List.set]
    | succ i' =>
      cases j with
      | zero => simp [List.set]
      | succ k => simpa [List.set] using ih i' k (by omega)

lemma countP_range_flip (f g : Nat → Bool) (p n : Nat)
    (hne : ∀ q, q < n → q ≠ p → f q = g q) (hp : p < n)
    (hf : f p = false) (hg : g p = true) :
    (List.range n).countP g = (List.range n).countP f + 1 := by
  induction n with
  | zero => omega
  | succ m ih =>
    rw [List.range_succ, List.countP_append, List.countP_append]
    by_cases hpm : p = m
    · have hcong : (List.range m).countP f = (List.range m).countP g := by
        apply List.countP_congr
        intro a ha
        have ham : a < m := List.mem_range.mp ha
        rw [hne a (by omega) (by omega)]
      have hgm : g m = true := by rw [← hpm]; exact hg
      have hfm : f m = false := by rw [← hpm]; exact hf
      simp [List.countP_cons, hgm, hfm, hcong]
    · have h1 : (List.range m).countP g = (List.range m).countP f + 1 :=
        ih (fun q hq => hne q (by omega)) (by omega)
      have h2 : f m = g m := hne m (by omega) (Ne.symm hpm)
      simp [List.countP_cons, h1, ← h2]
      omega

lemma countP_range_congr (f g : Nat → Bool) (n : Nat)
    (h : ∀ q, q < n → f q = g q) :
    (List.range n).countP f = (List.range n).countP g := by
  apply List.countP_congr
  intro a ha
  rw [h a (List.mem_range.mp ha)]

/-! ### Bit-level lemmas for the bitmap bytes -/

lemma testBit_mask8 (i j : Nat) (hi : i < 8) :
    (0xFF ^^^ (1 <<< i)).testBit j = (decide (j < 8) && !(decide (j = i))) := by
  have h1 : (1 : Nat) <<< i = 2 ^ i := by
    simp [Nat.shiftLeft_eq]
  rw [Nat.testBit_xor, h1, Nat.testBit_two_pow]
  have h255 : (0xFF : Nat) = 2 ^ 8 - 1 := by norm_num
  rw [h255, Nat.testBit_two_pow_sub_one]
  by_cases hj8 : j < 8 <;> by_cases hji : j = i <;>
    simp [hj8, hji] <;> omega

lemma testBit_clearBit8 (b i j : Nat) (hi : i < 8) :
    (clearBit8 b i).testBit j = (b.testBit j && decide (j < 8) && !(decide (j = i))) := by
  rw [clearBit8, Nat.testBit_land, testBit_mask8 i j hi, Bool.and_assoc]

lemma testBit_setBit8 (b i j : Nat) :
    (setBit8 b i).testBit j = (b.testBit j || decide (j = i)) := by
  have h1 : (1 : Nat) <<< i = 2 ^ i := by simp [Nat.shiftLeft_eq]
  rw [setBit8, Nat.testBit_lor, h1, Nat.testBit_two_pow]
  by_cases hji : j = i
  · subst hji
    simp
  · simp [hji, Ne.symm hji]

lemma clearBitsByte_clear (b i : Nat) (hi : i < 8) (hb : b.testBit i = true) :
    clearBitsByte (clearBit8 b i) = clearBitsByte b + 1 := by
  apply countP_range_flip (fun j => !b.testBit j) (fun j => !(clearBit8 b i).testBit j) i 8
  · intro q hq hqi
    rw [testBit_clearBit8 b i q hi]
    simp [hq, hqi]
  · exact hi
  · simp [hb]
  · rw [testBit_clearBit8 b i i hi]
    simp

lemma clearBitsByte_set (b i : Nat) (hi : i < 8) (hb : b.testBit i = false) :
    clearBitsByte b = clearBitsByte (setBit8 b i) + 1 := by
  apply countP_range_flip (fun j => !(setBit8 b i).testBit j) (fun j => !b.testBit j) i 8
  · intro q hq hqi
    rw [testBit_setBit8 b i q]
    simp [hqi]
  · exact hi
  · rw [testBit_setBit8 b i i]
    simp
  · simp [hb]

lemma clearBits_set (bm : List Nat) (i v : Nat) (h : i < bm.length) :
    clearBits (bm.set i v) + clearBitsByte (bm.getD i 0) =
      clearBits bm + clearBitsByte v := by
  induction bm generalizing i with
  | nil => simp at h
  | cons a t ih =>
    cases i with
    | zero => simp [clearBits, List.set]; ring
    | succ j =>
      have := ih j (by simpa using h)
      simp only [clearBits, List.set, List.map_cons, List.sum_cons, List.getD_cons_succ]
      simp only [clearBits] at this
      omega

lemma clearBits_replicate_ff (n : Nat) :
    clearBits (List.replicate n 0xFF) = 0 := by
  induction n with
  | zero => simp [clearBits]
  | succ m ih =>
    have h255 : clearBitsByte 0xFF = 0 := by decide
    simp only [List.replicate_succ, clearBits, List.map_cons, List.sum_cons, h255]
    simpa [clearBits] using ih

/-! ### The PMM bitmap/counter invariant -/

/-- The internal consistency the frame allocator maintains: the bitmap has
the size `pmm_init` gave it, and `free_pages` agrees both with the clear
bits of the bitmap and with the number of pages `pmm_is_page_free`
reports free. -/
def PMMInv (s : PMMState) : Prop :=
  s.bitmap.length = (s.total_pages + 7) / 8 ∧
  s.free_pages = clearBits s.bitmap ∧
  s.free_pages = countFree s

lemma mark_free_fields (s : PMMState) (p : Nat) :
    (pmm_mark_page_free s p).total_pages = s.total_pages ∧
    (pmm_mark_page_free s p).bitmap.length = s.bitmap.length := by
  unfold pmm_mark_page_free
  dsimp only
  split_ifs <;> simp

lemma mark_used_fields (s : PMMState) (p : Nat) :
    (pmm_mark_page_used s p).total_pages = s.total_pages ∧
    (pmm_mark_page_used s p).bitmap.length = s.bitmap.length := by
  unfold pmm_mark_page_used
  dsimp only
  split_ifs <;> simp

lemma isFree_def (s : PMMState) (q : Nat) :
    pmm_is_page_free s q =
      if q < s.total_pages then !((s.bitmap.getD (q / 8) 0).testBit (q % 8))
      else false := by
  unfold pmm_is_page_free
  by_cases h : q < s.total_pages
  · rw [if_neg (by omega), if_pos h]
  · rw [if_pos (by omega), if_neg h]

lemma mark_free_eq_of_ge (s : PMMState) (p : Nat) (hp : s.total_pages ≤ p) :
    pmm_mark_page_free s p = s := by
  unfold pmm_mark_page_free
  rw [if_pos (by omega)]

lemma mark_free_eq_of_clear (s : PMMState) (p : Nat) (hp : p < s.total_pages)
    (hbit : (s.bitmap.getD (p / 8) 0).testBit (p % 8) = false) :
    pmm_mark_page_free s p = s := by
  unfold pmm_mark_page_free
  rw [if_neg (by omega)]
  dsimp only
  rw [hbit]
  simp

lemma mark_free_eq_of_set (s : PMMState) (p : Nat) (hp : p < s.total_pages)
    (hbit : (s.bitmap.getD (p / 8) 0).testBit (p % 8) = true) :
    pmm_mark_page_free s p =
      { bitmap := s.bitmap.set (p / 8) (clearBit8 (s.bitmap.getD (p / 8) 0) (p % 8)),
        total_pages := s.total_pages, free_pages := s.free_pages + 1 } := by
  unfold pmm_mark_page_free
  rw [if_neg (by omega)]
  dsimp only
  rw [hbit]
  simp

lemma mark_used_eq_of_ge (s : PMMState) (p : Nat) (hp : s.total_pages ≤ p) :
    pmm_mark_page_used s p = s := by
  unfold pmm_mark_page_used
  rw [if_pos (by omega)]

lemma mark_used_eq_of_set (s : PMMState) (p : Nat) (hp : p < s.total_pages)
    (hbit : (s.bitmap.getD (p / 8) 0).testBit (p % 8) = true) :
    pmm_mark_page_used s p = s := by
  unfold pmm_mark_page_used
  rw [if_neg (by omega)]
  dsimp only
  rw [hbit]
  simp

lemma mark_used_eq_of_clear (s : PMMState) (p : Nat) (hp : p < s.total_pages)
    (hbit : (s.bitmap.getD (p / 8) 0).testBit (p % 8) = false) :
    pmm_mark_page_used s p =
      { bitmap := s.bitmap.set (p / 8) (setBit8 (s.bitmap.getD (p / 8) 0) (p % 8)),
        total_pages := s.total_pages, free_pages := s.free_pages - 1 } := by
  unfold pmm_mark_page_used
  rw [if_neg (by omega)]
  dsimp only
  rw [hbit]
  simp

lemma isFree_mark_free (s : PMMState) (p q : Nat)
    (hlen : s.bitmap.length = (s.total_pages + 7) / 8) :
    pmm_is_page_free (pmm_mark_page_free s p) q =
      (pmm_is_page_free s q || decide (q = p ∧ p < s.total_pages)) := by
  by_cases hp : p < s.total_pages
  · by_cases hbit : (s.bitmap.getD (p / 8) 0).testBit (p % 8)
    · rw [mark_free_eq_of_set s p hp hbit]
      rw [isFree_def, isFree_def]
      dsimp only
      by_cases hq : q < s.total_pages
      · rw [if_pos hq, if_pos hq]
        have hplen : p / 8 < s.bitmap.length := by rw [hlen]; omega
        by_cases hbyte : q / 8 = p / 8
        · rw [hbyte, getD_set_self _ _ _ hplen]
          by_cases hqp : q = p
          · subst hqp
            rw [testBit_clearBit8 _ _ _ (by omega)]
            simp [hbit, hq]
          · have hne : q % 8 ≠ p % 8 := by omega
            rw [testBit_clearBit8 _ _ _ (by omega)]
            have hna : ¬(q = p ∧ p < s.total_pages) := by tauto
            simp [hne, hna, Nat.mod_lt, hbyte]
        · rw [getD_set_other _ _ _ _ (fun hh => hbyte hh.symm)]
          have hna : ¬(q = p ∧ p < s.total_pages) := by
            rintro ⟨rfl, _⟩; exact hbyte rfl
          simp [hna]
      · rw [if_neg hq, if_neg hq]
        have hna : ¬(q = p ∧ p < s.total_pages) := by omega
        simp [hna]
    · rw [mark_free_eq_of_clear s p hp (by simpa using hbit)]
      by_cases hqp : q = p
      · subst hqp
        have h1 : pmm_is_page_free s q = true := by
          rw [isFree_def, if_pos hp]
          simpa using hbit
        simp [h1]
      · have hna : ¬(q = p ∧ p < s.total_pages) := by tauto
        simp [hna]
  · rw [mark_free_eq_of_ge s p (by omega)]
    have hna : ¬(q = p ∧ p < s.total_pages) := by omega
    simp [hna]

lemma isFree_mark_used (s : PMMState) (p q : Nat)
    (hlen : s.bitmap.length = (s.total_pages + 7) / 8) :
    pmm_is_page_free (pmm_mark_page_used s p) q =
      (pmm_is_page_free s q && !(decide (q = p))) := by
  by_cases hp : p < s.total_pages
  · by_cases hbit : (s.bitmap.getD (p / 8) 0).testBit (p % 8)
    · rw [mark_used_eq_of_set s p hp hbit]
      by_cases hqp : q = p
      · subst hqp
        have h1 : pmm_is_page_free s q = false := by
          rw [isFree_def, if_pos hp]
          simpa using hbit
        simp [h1]
      · simp [hqp]
    · rw [mark_used_eq_of_clear s p hp (by simpa using hbit)]
      rw [isFree_def, isFree_def]
      dsimp only
      by_cases hq : q < s.total_pages
      · rw [if_pos hq, if_pos hq]
        have hplen : p / 8 < s.bitmap.length := by rw [hlen]; omega
        by_cases hbyte : q / 8 = p / 8
        · rw [hbyte, getD_set_self _ _ _ hplen]
          by_cases hqp : q = p
          · subst hqp
            rw [testBit_setBit8]
            simp
          · have hne : q % 8 ≠ p % 8 := by omega
            rw [testBit_setBit8]
            simp [hne, hqp]
        · rw [getD_set_other _ _ _ _ (fun hh => hbyte hh.symm)]
          have hqp : q ≠ p := by rintro rfl; exact hbyte rfl
          simp [hqp]
      · rw [if_neg hq, if_neg hq]
        simp
  · rw [mark_used_eq_of_ge s p (by omega)]
    by_cases hqp : q = p
    · subst hqp
      have h1 : pmm_is_page_free s q = false := by
        rw [isFree_def, if_neg (by omega)]
      simp [h1]
    · simp [hqp]

lemma countFree_mark_free (s : PMMState) (p : Nat)
    (hlen : s.bitmap.length = (s.total_pages + 7) / 8) :
    countFree (pmm_mark_page_free s p) =
      if p < s.total_pages ∧ pmm_is_page_free s p = false
      then countFree s + 1 else countFree s := by
  have htot : (pmm_mark_page_free s p).total_pages = s.total_pages :=
    (mark_free_fields s p).1
  unfold countFree
  rw [htot]
  by_cases hcase : p < s.total_pages ∧ pmm_is_page_free s p = false
  · rw [if_pos hcase]
    apply countP_range_flip (fun q => pmm_is_page_free s q)
      (fun q => pmm_is_page_free (pmm_mark_page_free s p) q) p s.total_pages
    · intro q _ hqp
      rw [isFree_mark_free s p q hlen]
      simp [hqp]
    · exact hcase.1
    · exact hcase.2
    · rw [isFree_mark_free s p p hlen]
      simp [hcase.1]
  · rw [if_neg hcase]
    apply countP_range_congr
    intro q _
    rw [isFree_mark_free s p q hlen]
    by_cases hqp : q = p
    · subst hqp
      by_cases hq : q < s.total_pages
      · have hft : pmm_is_page_free s q = true := by
          cases hqq : pmm_is_page_free s q with
          | false => exact absurd ⟨hq, hqq⟩ hcase
          | true => rfl
        simp [hft]
      · have hff : pmm_is_page_free s q = false := by
          rw [isFree_def, if_neg hq]
        simp [hff, hq]
    · simp [hqp]

lemma countFree_mark_used (s : PMMState) (p : Nat)
    (hlen : s.bitmap.length = (s.total_pages + 7) / 8) :
    countFree (pmm_mark_page_used s p) + (if pmm_is_page_free s p = true then 1 else 0) =
      countFree s := by
  have htot : (pmm_mark_page_used s p).total_pages = s.total_pages :=
    (mark_used_fields s p).1
  unfold countFree
  rw [htot]
  by_cases hfree : pmm_is_page_free s p = true
  · rw [if_pos hfree]
    have hp : p < s.total_pages := by
      rcases Nat.lt_or_ge p s.total_pages with h | h
      · exact h
      · rw [isFree_def, if_neg (by omega)] at hfree
        exact absurd hfree (by simp)
    have := countP_range_flip (fun q => pmm_is_page_free (pmm_mark_page_used s p) q)
      (fun q => pmm_is_page_free s q) p s.total_pages
      (by intro q _ hqp
          show pmm_is_page_free (pmm_mark_page_used s p) q = pmm_is_page_free s q
          rw [isFree_mark_used s p q hlen]
          simp [hqp])
      hp
      (by show pmm_is_page_free (pmm_mark_page_used s p) p = false
          rw [isFree_mark_used s p p hlen]
          simp)
      hfree
    omega
  · rw [if_neg hfree]
    simp only [Nat.add_zero]
    apply countP_range_congr
    intro q _
    rw [isFree_mark_used s p q hlen]
    by_cases hqp : q = p
    · subst hqp
      simp [Bool.eq_false_iff.mpr, Bool.not_eq_true] at hfree
      simp [hfree]
    · simp [hqp]

lemma mark_free_inv (s : PMMState) (p : Nat) (h : PMMInv s) :
    PMMInv (pmm_mark_page_free s p) := by
  obtain ⟨hlen, hcb, hcf⟩ := h
  by_cases hp : p < s.total_pages
  · by_cases hbit : (s.bitmap.getD (p / 8) 0).testBit (p % 8)
    · have heq := mark_free_eq_of_set s p hp hbit
      have hfree : pmm_is_page_free s p = false := by
        rw [isFree_def, if_pos hp]
        simpa using hbit
      have hplen : p / 8 < s.bitmap.length := by rw [hlen]; omega
      have hcb' := clearBits_set s.bitmap (p / 8)
        (clearBit8 (s.bitmap.getD (p / 8) 0) (p % 8)) hplen
      have hbyte := clearBitsByte_clear (s.bitmap.getD (p / 8) 0) (p % 8)
        (by omega) hbit
      have hcf' := countFree_mark_free s p hlen
      rw [if_pos ⟨hp, hfree⟩] at hcf'
      have hfp : (pmm_mark_page_free s p).free_pages = s.free_pages + 1 := by rw [heq]
      have hbm : (pmm_mark_page_free s p).bitmap =
          s.bitmap.set (p / 8) (clearBit8 (s.bitmap.getD (p / 8) 0) (p % 8)) := by rw [heq]
      refine ⟨?_, ?_, ?_⟩
      · rw [(mark_free_fields s p).1, (mark_free_fields s p).2]
        exact hlen
      · rw [hfp, hbm]
        omega
      · rw [hfp]
        omega
    · rw [mark_free_eq_of_clear s p hp (by simpa using hbit)]
      exact ⟨hlen, hcb, hcf⟩
  · rw [mark_free_eq_of_ge s p (by omega)]
    exact ⟨hlen, hcb, hcf⟩

lemma mark_used_inv (s : PMMState) (p : Nat) (h : PMMInv s) :
    PMMInv (pmm_mark_page_used s p) := by
  obtain ⟨hlen, hcb, hcf⟩ := h
  by_cases hp : p < s.total_pages
  · by_cases hbit : (s.bitmap.getD (p / 8) 0).testBit (p % 8)
    · rw [mark_used_eq_of_set s p hp hbit]
      exact ⟨hlen, hcb, hcf⟩
    · have hbit' : (s.bitmap.getD (p / 8) 0).testBit (p % 8) = false := by
        simpa using hbit
      have heq := mark_used_eq_of_clear s p hp hbit'
      have hfree : pmm_is_page_free s p = true := by
        rw [isFree_def, if_pos hp]
        simpa using hbit
      have hplen : p / 8 < s.bitmap.length := by rw [hlen]; omega
      have hcb' := clearBits_set s.bitmap (p / 8)
        (setBit8 (s.bitmap.getD (p / 8) 0) (p % 8)) hplen
      have hbyte := clearBitsByte_set (s.bitmap.getD (p / 8) 0) (p % 8)
        (by omega) hbit'
      have hcf' := countFree_mark_used s p hlen
      rw [if_pos hfree] at hcf'
      have hfp : (pmm_mark_page_used s p).free_pages = s.free_pages - 1 := by rw [heq]
      have hbm : (pmm_mark_page_used s p).bitmap =
          s.bitmap.set (p / 8) (setBit8 (s.bitmap.getD (p / 8) 0) (p % 8)) := by rw [heq]
      refine ⟨?_, ?_, ?_⟩
      · rw [(mark_used_fields s p).1, (mark_used_fields s p).2]
        exact hlen
      · rw [hfp, hbm]
        omega
      · rw [hfp]
        omega
  · rw [mark_used_eq_of_ge s p (by omega)]
    exact ⟨hlen, hcb, hcf⟩

lemma markRangeFree_inv (s : PMMState) (start n : Nat) (h : PMMInv s) :
    PMMInv (markRangeFree s start n) := by
  induction n generalizing s start with
  | zero => exact h
  | succ m ih => exact ih (pmm_mark_page_free s start) (start + 1) (mark_free_inv s start h)

lemma markRegionsFree_inv (s : PMMState) (rs : List MemRegion) (h : PMMInv s) :
    PMMInv (markRegionsFree s rs) := by
  induction rs generalizing s with
  | nil => exact h
  | cons r rest ih =>
    unfold markRegionsFree
    apply ih
    dsimp only
    split_ifs with hr
    · exact markRangeFree_inv s _ _ h
    · exact h

lemma pmm_init_inv (regions : List MemRegion) (s : PMMState)
    (h : pmm_init regions = some s) : PMMInv s := by
  unfold pmm_init at h
  by_cases hnil : regions = []
  · rw [if_pos hnil] at h
    exact absurd h (by simp)
  · rw [if_neg hnil] at h
    dsimp only at h
    have hbase : PMMInv
        { bitmap := List.replicate ((availableMemory (regions.take 32) / PAGE_SIZE + 7) / 8) 0xFF
          total_pages := availableMemory (regions.take 32) / PAGE_SIZE
          free_pages := 0 } := by
      refine ⟨by simp, ?_, ?_⟩
      · dsimp only
        rw [clearBits_replicate_ff]
      · unfold countFree
        dsimp only
        rw [List.countP_eq_zero.mpr]
        intro q hq
        rw [isFree_def]
        dsimp only
        split_ifs with hlt
        · have hql : q / 8 < (availableMemory (regions.take 32) / PAGE_SIZE + 7) / 8 := by
            omega
          rw [List.getD_eq_getElem _ _ (by simpa using hql)]
          simp only [List.getElem_replicate]
          have h8 : q % 8 < 8 := by omega
          have : Nat.testBit 0xFF (q % 8) = true := by
            interval_cases h : (q % 8) <;> decide
          simp [this]
        · simp
    have hmr := markRegionsFree_inv _ (regions.take 32) hbase
    have hs := Option.some.inj h
    rw [← hs]
    exact hmr

/-! ### Characterizing the bitmap produced by pmm_init -/

/-- The page numbers the `pmm_init` marking loop visits for one region:
`start/PAGE_SIZE ≤ q < start/PAGE_SIZE + size/PAGE_SIZE`, for an available
region (pmm.c lines 85-91). -/
def regionCovers (r : MemRegion) (q : Nat) : Bool :=
  decide (r.rtype = MEMORY_TYPE_AVAILABLE) &&
  decide (r.start / PAGE_SIZE ≤ q ∧ q < r.start / PAGE_SIZE + r.size / PAGE_SIZE)

/-- Page `q` is visited by the marking loop of some region in the list. -/
def coveredBy (rs : List MemRegion) (q : Nat) : Bool :=
  rs.any (fun r => regionCovers r q)

lemma markRangeFree_fields (s : PMMState) (start n : Nat) :
    (markRangeFree s start n).total_pages = s.total_pages ∧
    (markRangeFree s start n).bitmap.length = s.bitmap.length := by
  induction n generalizing s start with
  | zero => exact ⟨rfl, rfl⟩
  | succ m ih =>
    have h1 := ih (pmm_mark_page_free s start) (start + 1)
    have h2 := mark_free_fields s start
    unfold markRangeFree
    omega

lemma markRegionsFree_fields (s : PMMState) (rs : List MemRegion) :
    (markRegionsFree s rs).total_pages = s.total_pages ∧
    (markRegionsFree s rs).bitmap.length = s.bitmap.length := by
  induction rs generalizing s with
  | nil => exact ⟨rfl, rfl⟩
  | cons r rest ih =>
    unfold markRegionsFree
    dsimp only
    split_ifs with hr
    · have h1 := ih (markRangeFree s (r.start / PAGE_SIZE) (r.size / PAGE_SIZE))
      have h2 := markRangeFree_fields s (r.start / PAGE_SIZE) (r.size / PAGE_SIZE)
      omega
    · exact ih s

lemma isFree_markRangeFree (s : PMMState) (start n q : Nat)
    (hlen : s.bitmap.length = (s.total_pages + 7) / 8) :
    pmm_is_page_free (markRangeFree s start n) q =
      (pmm_is_page_free s q ||
        decide (start ≤ q ∧ q < start + n ∧ q < s.total_pages)) := by
  induction n generalizing s start with
  | zero =>
    have hna : decide (start ≤ q ∧ q < start + 0 ∧ q < s.total_pages) = false := by
      apply decide_eq_false
      omega
    rw [show markRangeFree s start 0 = s from rfl, hna, Bool.or_false]
  | succ m ih =>
    unfold markRangeFree
    have hlen' : (pmm_mark_page_free s start).bitmap.length =
        ((pmm_mark_page_free s start).total_pages + 7) / 8 := by
      have := mark_free_fields s start
      omega
    rw [ih (pmm_mark_page_free s start) (start + 1) hlen']
    rw [(mark_free_fields s start).1]
    rw [isFree_mark_free s start q hlen]
    rw [Bool.or_assoc]
    congr 1
    rw [Bool.eq_iff_iff]
    simp only [Bool.or_eq_true, decide_eq_true_eq]
    omega

lemma isFree_markRegionsFree (s : PMMState) (rs : List MemRegion) (q : Nat)
    (hlen : s.bitmap.length = (s.total_pages + 7) / 8) :
    pmm_is_page_free (markRegionsFree s rs) q =
      (pmm_is_page_free s q || (coveredBy rs q && decide (q < s.total_pages))) := by
  induction rs generalizing s with
  | nil => simp [markRegionsFree, coveredBy]
  | cons r rest ih =>
    unfold markRegionsFree
    dsimp only
    split_ifs with hr
    · have hlen' := markRangeFree_fields s (r.start / PAGE_SIZE) (r.size / PAGE_SIZE)
      rw [ih _ (by omega)]
      rw [(markRangeFree_fields s _ _).1]
      rw [isFree_markRangeFree s _ _ q hlen]
      rw [Bool.eq_iff_iff]
      simp only [Bool.or_eq_true, Bool.and_eq_true, decide_eq_true_eq,
        coveredBy, List.any_cons, regionCovers, hr, decide_True, Bool.true_and]
      constructor
      · rintro ((hf | hrange) | hcov)
        · exact Or.inl hf
        · exact Or.inr ⟨Or.inl ⟨(by omega), (by omega)⟩, by omega⟩
        · exact Or.inr ⟨Or.inr hcov.1, hcov.2⟩
      · rintro (hf | ⟨hc | hcov, hlt⟩)
        · exact Or.inl (Or.inl hf)
        · exact Or.inl (Or.inr (by omega))
        · exact Or.inr ⟨hcov, hlt⟩
    · rw [ih s hlen]
      have : regionCovers r q = false := by
        simp [regionCovers, hr]
      simp [coveredBy, this]

lemma isFree_allSet (tp q : Nat) :
    pmm_is_page_free
      { bitmap := List.replicate ((tp + 7) / 8) 0xFF, total_pages := tp,
        free_pages := 0 } q = false := by
  rw [isFree_def]
  dsimp only
  split_ifs with hlt
  · have hql : q / 8 < (tp + 7) / 8 := by omega
    rw [List.getD_eq_getElem _ _ (by simpa using hql)]
    simp only [List.getElem_replicate]
    have h8 : q % 8 < 8 := by omega
    have hbit : Nat.testBit 0xFF (q % 8) = true := by
      interval_cases h : (q % 8) <;> decide
    simp [hbit]
  · rfl

/-! ### Claims C1, C3, C10 -/

/-- C1 (amended): after a successful `pmm_init`, `total_pages` is the sum
of the sizes of the (at most 32 retained) available regions divided by the
page size, and a frame is free in the bitmap exactly when it both lies in
the tracked range `[0, total_pages)` and is visited by the marking loop of
some available region (page numbers `start/PAGE_SIZE` up to but excluding
`start/PAGE_SIZE + size/PAGE_SIZE`); `free_pages` counts exactly the free
frames.  The claim's unrestricted form — every frame inside an available
region is marked free — fails for regions that do not start at physical
address 0, because marking is clipped to the tracked range. -/
theorem pmm_init_free_frame_characterization (regions : List MemRegion)
    (s : PMMState) (h : pmm_init regions = some s) :
    s.total_pages = availableMemory (regions.take 32) / PAGE_SIZE ∧
    (∀ q, pmm_is_page_free s q = true ↔
      (q < s.total_pages ∧ coveredBy (regions.take 32) q = true)) ∧
    s.free_pages = countFree s := by
  have hinv := pmm_init_inv regions s h
  unfold pmm_init at h
  by_cases hnil : regions = []
  · rw [if_pos hnil] at h
    exact absurd h (by simp)
  · rw [if_neg hnil] at h
    dsimp only at h
    have hs := Option.some.inj h
    have htp : s.total_pages = availableMemory (regions.take 32) / PAGE_SIZE := by
      rw [← hs, (markRegionsFree_fields _ _).1]
    refine ⟨htp, ?_, hinv.2.2⟩
    intro q
    rw [← hs]
    rw [isFree_markRegionsFree _ _ _ (by simp)]
    rw [isFree_allSet]
    rw [(markRegionsFree_fields _ _).1]
    dsimp only
    simp only [Bool.false_or, Bool.and_eq_true, decide_eq_true_eq]
    tauto

/-- C1 witness: a single available region of two pages starting at
physical address 0 yields two free frames, both characterized. -/
theorem pmm_init_free_frame_characterization_witness :
    pmm_init [{ start := 0, size := 0x2000, rtype := 1 }] =
      some { bitmap := [0xFC], total_pages := 2, free_pages := 2 } ∧
    (pmm_is_page_free { bitmap := [0xFC], total_pages := 2, free_pages := 2 } 1 = true ↔
      (1 < (2 : Nat) ∧ coveredBy [{ start := 0, size := 0x2000, rtype := 1 }] 1 = true)) ∧
    (2 : Nat) = countFree { bitmap := [0xFC], total_pages := 2, free_pages := 2 } := by
  have h : pmm_init [{ start := 0, size := 0x2000, rtype := 1 }] =
      some { bitmap := [0xFC], total_pages := 2, free_pages := 2 } := by decide
  have := pmm_init_free_frame_characterization
    [{ start := 0, size := 0x2000, rtype := 1 }]
    { bitmap := [0xFC], total_pages := 2, free_pages := 2 } h
  exact ⟨h, this.2.1 1, this.2.2⟩

/-- C1 counterexample: one available region `[0x1000, 0x2000)` (its single
frame is page number 1).  `pmm_init` succeeds with `total_pages = 1`, yet
the frame inside the available region is NOT marked free (the bitmap stays
all-ones and `free_pages = 0`), contradicting the claim that every frame
inside an available region is marked free and counted in `free_pages`. -/
theorem pmm_init_offset_region_not_freed :
    pmm_init [{ start := 0x1000, size := 0x1000, rtype := 1 }] =
      some { bitmap := [0xFF], total_pages := 1, free_pages := 0 } ∧
    pmm_is_page_free { bitmap := [0xFF], total_pages := 1, free_pages := 0 } 1 = false ∧
    (0x1000 : Nat) / PAGE_SIZE = 1 ∧ (0x1000 + 0x1000 : Nat) / PAGE_SIZE = 2 := by
  refine ⟨by decide, by decide, by decide, by decide⟩

/-- `pmm_free_page` on a misaligned address or an already-free frame
emits a warning and returns the state (bitmap and counter) unchanged
(pmm.c lines 192-201). -/
lemma pmm_free_page_warn_noop (s : PMMState) (addr : Nat)
    (haddr : addr % PAGE_SIZE ≠ 0 ∨ pmm_is_page_free s (addr / PAGE_SIZE) = true) :
    pmm_free_page s addr = (true, s) := by
  unfold pmm_free_page
  dsimp only
  by_cases h0 : addr = 0 ∨ addr % PAGE_SIZE ≠ 0
  · rw [if_pos h0]
  · rw [if_neg h0]
    push_neg at h0
    have hfree : pmm_is_page_free s (addr / PAGE_SIZE) = true := by
      rcases haddr with hm | hf
      · exact absurd h0.2 hm
      · exact hf
    rw [if_pos hfree]

set_option maxRecDepth 16000 in
/-- C3 (code bug): the claimed invariant — `free_pages` always equals the
number of clear bits in the bitmap — is broken by the very first
`pmm_alloc_page` whenever the frame at 0x100000 is allocatable, because
the bitmap itself is stored (unreserved) at 0x100000 and the allocator's
zero-fill of the handed-out frame wipes it.  Concretely: one available
region of 0x101000 bytes at 0x100000 initializes 257 tracked pages of
which exactly page 256 (frame 0x100000) is free; the first allocation
returns frame 0x100000, decrements `free_pages` to 0, and zero-fills the
frame — clearing the whole 33-byte bitmap, which then shows 264 clear
bits against `free_pages = 0`. -/
theorem pmm_alloc_page_wipes_bitmap :
    pmm_init [{ start := 0x100000, size := 0x101000, rtype := 1 }] =
      some { bitmap := List.replicate 32 0xFF ++ [0xFE],
             total_pages := 257, free_pages := 1 } ∧
    pmm_alloc_page { bitmap := List.replicate 32 0xFF ++ [0xFE],
                     total_pages := 257, free_pages := 1 } =
      (0x100000, { bitmap := List.replicate 33 0, total_pages := 257,
                   free_pages := 0 }) ∧
    clearBits (List.replicate 33 0) = 264 ∧
    (0 : Nat) ≠ 264 := by
  refine ⟨by decide, by decide, by decide, by decide⟩

/-- C10 (confirmed): `pmm_init` keeps only the first 32 regions; with more
than 32 regions the result (bitmap, counters, and success/failure) is
identical to initializing with just the first 32, and initialization still
succeeds — the dropped regions produce no error. -/
theorem pmm_init_truncates_to_32 (regions : List MemRegion)
    (h : 32 < regions.length) :
    pmm_init regions = pmm_init (regions.take 32) ∧
    (pmm_init regions).isSome = true := by
  have hne : regions ≠ [] := by
    intro he
    rw [he] at h
    simp at h
  have hne' : regions.take 32 ≠ [] := by
    have hlt : (regions.take 32).length = min 32 regions.length :=
      List.length_take _ _
    intro he
    rw [he] at hlt
    simp only [List.length_nil] at hlt
    omega
  constructor
  · unfold pmm_init
    rw [if_neg hne, if_neg hne', List.take_take]
    simp
  · unfold pmm_init
    rw [if_neg hne]
    simp

/-- C10 witness: 33 copies of a one-page region; the 33rd is dropped and
initialization succeeds. -/
theorem pmm_init_truncates_to_32_witness :
    pmm_init (List.replicate 33 { start := 0, size := 0x1000, rtype := 1 }) =
      pmm_init ((List.replicate 33
        { start := 0, size := 0x1000, rtype := (1 : Nat) }).take 32) ∧
    (pmm_init (List.replicate 33
      { start := 0, size := 0x1000, rtype := (1 : Nat) })).isSome = true :=
  pmm_init_truncates_to_32 _ (by decide)

/-! ## Virtual memory manager (src/kernel/mm/vmm.c)

The four-level page-table tree.  An intermediate entry is written only by
`vmm_map_page`, always as `child_phys | PTE_PRESENT | PTE_WRITABLE` with a
freshly zero-filled child table, and is only ever read through its present
bit and its masked child address; the tree is therefore modelled with
`Option` at the three intermediate levels, while leaf entries keep their
raw 64-bit value `(physical_addr & ~0xFFF) | flags`.  `pmm_alloc_page` is
assumed to succeed when a fresh intermediate table is needed (the claims
condition on `vmm_map_page` succeeding, and on success the resulting tree
does not depend on which frames the allocator handed out). -/

/-- `PTE_PRESENT` (arch.h line 36). -/
def PTE_PRESENT : Nat := 1

/-- `~0xFFFUL` as a 64-bit mask. -/
def MASK_HIGH : Nat := U64 - 0x1000

/-- A level-1 page table: raw 64-bit entries, indexed 0..511. -/
def PTab := Nat → Nat

/-- A page directory: present intermediate entries point at a `PTab`. -/
def PDir := Nat → Option PTab

/-- A page directory pointer table. -/
def PDPT := Nat → Option PDir

/-- The top level (`kernel_pml4`). -/
def PML4T := Nat → Option PDPT

/-- Pointwise function update, used for page-table entry writes. -/
def upd {α : Type} (f : Nat → α) (i : Nat) (v : α) : Nat → α :=
  fun j => if j = i then v else f j

/-- The nine-bit table indices and page offset of a virtual address
(vmm.c lines 78-81, 173). -/
def pml4_index (va : Nat) : Nat := (va >>> 39) &&& 0x1FF
def pdp_index (va : Nat) : Nat := (va >>> 30) &&& 0x1FF
def pd_index (va : Nat) : Nat := (va >>> 21) &&& 0x1FF
def pt_index (va : Nat) : Nat := (va >>> 12) &&& 0x1FF

/-- `vmm_map_page` (vmm.c lines 76-130): create missing intermediate
tables (zero-filled), then install `(physical_addr & ~0xFFF) | flags` as
the leaf entry.  `flags` is a `uint32_t` parameter, hence masked to 32
bits.  TLB invalidation has no effect on the modelled state. -/
def vmm_map_page (root : PML4T) (va pa flags : Nat) : PML4T :=
  let pdp := (root (pml4_index va)).getD (fun _ => none)
  let pd := (pdp (pdp_index va)).getD (fun _ => none)
  let pt := (pd (pd_index va)).getD (fun _ => 0)
  let pt' := upd pt (pt_index va) ((pa &&& MASK_HIGH) ||| (flags &&& 0xFFFFFFFF))
  upd root (pml4_index va) (some (upd pdp (pdp_index va) (some (upd pd (pd_index va) (some pt')))))

/-- `vmm_unmap_page` (vmm.c lines 136-160): walk without creating tables;
absent level means no-op, otherwise clear the leaf entry to 0. -/
def vmm_unmap_page (root : PML4T) (va : Nat) : PML4T :=
  match root (pml4_index va) with
  | none => root
  | some pdp =>
    match pdp (pdp_index va) with
    | none => root
    | some pd =>
      match pd (pd_index va) with
      | none => root
      | some pt =>
        upd root (pml4_index va)
          (some (upd pdp (pdp_index va)
            (some (upd pd (pd_index va)
              (some (upd pt (pt_index va) 0))))))

/-- `vmm_get_physical` (vmm.c lines 167-189): read-only walk; 0 if any
level (or the leaf present bit) is absent, else
`(entry & ~0xFFF) | (va & 0xFFF)`. -/
def vmm_get_physical (root : PML4T) (va : Nat) : Nat :=
  match root (pml4_index va) with
  | none => 0
  | some pdp =>
    match pdp (pdp_index va) with
    | none => 0
    | some pd =>
      match pd (pd_index va) with
      | none => 0
      | some pt =>
        let entry := pt (pt_index va)
        if entry &&& PTE_PRESENT = 0 then 0
        else (entry &&& MASK_HIGH) ||| (va &&& 0xFFF)

/-- The all-absent tree: a freshly zero-filled PML4 (`vmm_init` before any
mapping, vmm.c line 42). -/
def emptyPML4 : PML4T := fun _ => none

lemma upd_same {α : Type} (f : Nat → α) (i : Nat) (v : α) : upd f i v i = v := by
  simp [upd]

lemma land_lor_distrib_right (a b m : Nat) :
    (a ||| b) &&& m = (a &&& m) ||| (b &&& m) := by
  apply Nat.eq_of_testBit_eq
  intro i
  simp [Nat.testBit_land, Nat.testBit_lor, Bool.and_or_distrib_right]

lemma land_land (a m : Nat) : (a &&& m) &&& m = a &&& m := by
  apply Nat.eq_of_testBit_eq
  intro i
  simp [Nat.testBit_land, Bool.and_assoc]

/-! ### Claim C2 -/

/-- C2 (amended): if `flags` has the present bit set then immediately
after `vmm_map_page(va, pa, flags)` succeeds, `vmm_get_physical(va)`
returns `(pa & ~0xFFF) | (flags & ~0xFFF) | (va & 0xFFF)` — which equals
`pa + (va & 0xFFF)` when `pa` is page-aligned and `flags` fits in the low
12 bits — and after a subsequent `vmm_unmap_page(va)`,
`vmm_get_physical(va)` returns the unmapped sentinel 0.  The claim's
unrestricted form fails when `flags` lacks `PTE_PRESENT` (translation then
reports unmapped) and when `pa` is misaligned (the low 12 bits of `pa` are
dropped by the leaf-entry mask). -/
theorem vmm_map_translate_roundtrip (root : PML4T) (va pa flags : Nat)
    (hp : flags &&& PTE_PRESENT ≠ 0) :
    vmm_get_physical (vmm_map_page root va pa flags) va =
      ((pa &&& MASK_HIGH) ||| ((flags &&& 0xFFFFFFFF) &&& MASK_HIGH)) |||
        (va &&& 0xFFF) ∧
    vmm_get_physical (vmm_unmap_page (vmm_map_page root va pa flags) va) va = 0 := by
  have hm1 : MASK_HIGH &&& 1 = 0 := by decide
  have hf1 : (0xFFFFFFFF : Nat) &&& 1 = 1 := by decide
  have hentry1 : ((pa &&& MASK_HIGH) ||| (flags &&& 0xFFFFFFFF)) &&& PTE_PRESENT ≠ 0 := by
    rw [PTE_PRESENT, land_lor_distrib_right, Nat.land_assoc, hm1,
      Nat.land_assoc, hf1]
    simpa [PTE_PRESENT] using hp
  constructor
  · simp only [vmm_map_page, vmm_get_physical, upd_same, Option.getD_some]
    rw [if_neg hentry1]
    rw [land_lor_distrib_right, land_land]
  · simp only [vmm_map_page, vmm_unmap_page, vmm_get_physical, upd_same,
      Option.getD_some]
    simp [PTE_PRESENT]

/-- C2 witness: map `0x40000456 → 0x2000` with `PTE_PRESENT|PTE_WRITABLE`
(flags 3); translation yields `0x2456`, and 0 after unmapping. -/
theorem vmm_map_translate_roundtrip_witness :
    ((3 : Nat) &&& PTE_PRESENT ≠ 0) ∧
    vmm_get_physical (vmm_map_page emptyPML4 0x40000456 0x2000 3) 0x40000456 =
      ((0x2000 &&& MASK_HIGH) ||| ((3 &&& 0xFFFFFFFF) &&& MASK_HIGH)) |||
        (0x40000456 &&& 0xFFF) ∧
    (((0x2000 : Nat) &&& MASK_HIGH) ||| ((3 &&& 0xFFFFFFFF) &&& MASK_HIGH)) |||
        (0x40000456 &&& 0xFFF) = 0x2456 ∧
    vmm_get_physical
      (vmm_unmap_page (vmm_map_page emptyPML4 0x40000456 0x2000 3) 0x40000456)
      0x40000456 = 0 :=
  ⟨by decide,
   (vmm_map_translate_roundtrip emptyPML4 0x40000456 0x2000 3 (by decide)).1,
   by decide,
   (vmm_map_translate_roundtrip emptyPML4 0x40000456 0x2000 3 (by decide)).2⟩

/-- C2 counterexample: mapping `va = 0` to `pa = 0x1000` with `flags = 0`
(no `PTE_PRESENT`) succeeds, yet `vmm_get_physical` then returns 0, not
`pa + (va & 0xFFF) = 0x1000` as the claim requires for all flags. -/
theorem vmm_translate_without_present_bit :
    vmm_get_physical (vmm_map_page emptyPML4 0 0x1000 0) 0 = 0 ∧
    (0 : Nat) ≠ 0x1000 + (0 &&& 0xFFF) := by
  exact ⟨by decide, by decide⟩

/-! ## Kernel heap allocator (src/kernel/mm/heap.c)

The arena is modelled as the ordered list of block headers the code
maintains (`struct heap_block`), each carrying its address, total size
(header + payload) and allocated flag; the doubly linked `next`/`prev`
pointers are the list order, and the magic sentinel is abstracted: a
header read at an address where no genuine header lives never matches
`HEAP_MAGIC`.  Payload byte contents are not modelled; where a claim
refers to copying or zero-filling, the model records the length the code
passes to `memory_copy`/`memory_set`.  `size_t` arithmetic wraps at
2^64 (`add64`/`sub64`); the `allocations`/`frees` counters are
`uint32_t`. -/

/-- `sizeof(struct heap_block)` on LP64 (heap.c lines 16-22):
`size_t size` (8) + `bool allocated` (enum, 4, padded to 8) +
`next` (8) + `prev` (8) + `uint32_t magic` (4, padded to 8) = 40. -/
def HEAP_BLOCK_HEADER_SIZE : Nat := 40

/-- `HEAP_MIN_BLOCK_SIZE` (heap.c line 26). -/
def HEAP_MIN_BLOCK_SIZE : Nat := 64

/-- `HEAP_ALIGNMENT` (heap.c line 27). -/
def HEAP_ALIGNMENT : Nat := 16

/-- One heap block header: address, total size (header + payload) and
allocated flag.  Genuine headers carry `HEAP_MAGIC`. -/
structure HBlock where
  addr : Nat
  size : Nat
  allocated : Bool
  deriving Repr, DecidableEq

/-- The `heap_info` module state (heap.c lines 30-39); `first` and the
link pointers are the `blocks` list, in address order. -/
structure HeapState where
  hstart : Nat
  hend : Nat
  hsize : Nat
  used : Nat
  free : Nat
  blocks : List HBlock
  allocations : Nat
  frees : Nat
  deriving Repr, DecidableEq

/-- `heap_init` (heap.c lines 53-81): clamp the size up to one page,
round it up to a page multiple, and install one free block spanning the
arena.  Always returns 0 (success). -/
def heap_init (start initial_size : Nat) : Int × HeapState :=
  let sz1 := if initial_size < PAGE_SIZE then PAGE_SIZE else initial_size
  let sz2 := add64 sz1 (PAGE_SIZE - 1) &&& (U64 - PAGE_SIZE)
  (0, { hstart := start
        hend := add64 start sz2
        hsize := sz2
        used := 0
        free := sz2
        blocks := [{ addr := start, size := sz2, allocated := false }]
        allocations := 0
        frees := 0 })

/-- `size = (size + HEAP_ALIGNMENT - 1) & ~(HEAP_ALIGNMENT - 1)`
(heap.c line 92). -/
def alignUp16 (n : Nat) : Nat := add64 n (HEAP_ALIGNMENT - 1) &&& (U64 - HEAP_ALIGNMENT)

/-- The combined `find_free_block` / `split_block` / mark-allocated walk
of `kmalloc` (heap.c lines 98-110, 223-260): first-fit scan for a free
block of at least `total` bytes; split it when the leftover exceeds
`HEAP_MIN_BLOCK_SIZE`.  Returns the payload address, the size of the
block handed out (as counted into the statistics), and the new list. -/
def allocWalk (total : Nat) : List HBlock → Option (Nat × Nat × List HBlock)
  | [] => none
  | b :: rest =>
    if !b.allocated ∧ total ≤ b.size then
      if total + HEAP_MIN_BLOCK_SIZE < b.size then
        some (add64 b.addr HEAP_BLOCK_HEADER_SIZE, total,
          { addr := b.addr, size := total, allocated := true } ::
          { addr := add64 b.addr total, size := b.size - total, allocated := false } ::
          rest)
      else
        some (add64 b.addr HEAP_BLOCK_HEADER_SIZE, b.size,
          { addr := b.addr, size := b.size, allocated := true } :: rest)
    else
      match allocWalk total rest with
      | none => none
      | some (p, c, bl) => some (p, c, b :: bl)

/-- `kmalloc` (heap.c lines 88-122). -/
def kmalloc (s : HeapState) (n : Nat) : Option Nat × HeapState :=
  if n = 0 then (none, s)
  else
    let total := add64 (alignUp16 n) HEAP_BLOCK_HEADER_SIZE
    match allocWalk total s.blocks with
    | none => (none, s)
    | some (p, csize, bl) =>
      (some p,
       { s with blocks := bl
                used := add64 s.used csize
                free := sub64 s.free csize
                allocations := (s.allocations + 1) % 4294967296 })

/-- The genuine-header lookup behind `is_valid_block`'s magic test: the
address is the start of a block on the list. -/
def findBlock (bl : List HBlock) (a : Nat) : Option HBlock :=
  bl.find? (fun b => b.addr == a)

/-- The forward merge loop of `merge_blocks` (heap.c lines 268-275):
absorb consecutive following free blocks. -/
def absorbNext (b : HBlock) : List HBlock → HBlock × List HBlock
  | [] => (b, [])
  | n :: rest =>
    if n.allocated then (b, n :: rest)
    else absorbNext { b with size := add64 b.size n.size } rest

/-- The backward merge loop of `merge_blocks` (heap.c lines 278-286),
over the reversed prefix of blocks before the freed one. -/
def absorbPrev : List HBlock → HBlock → List HBlock × HBlock
  | [], b => ([], b)
  | p :: rev, b =>
    if p.allocated then (p :: rev, b)
    else absorbPrev rev { p with size := add64 p.size b.size }

/-- The mutating part of `kfree` (heap.c lines 204-213): mark the block
at address `a` free and merge bidirectionally.  `rev` is the reversed
prefix already scanned; if no block matches, the list is unchanged. -/
def doFree : List HBlock → List HBlock → Nat → List HBlock
  | [], rev, _ => rev.reverse
  | b :: rest, rev, a =>
    if b.addr = a then
      let r1 := absorbNext { b with allocated := false } rest
      let r2 := absorbPrev rev r1.1
      r2.1.reverse ++ r2.2 :: r1.2
    else doFree rest (b :: rev) a

/-- `kfree` (heap.c lines 188-216).  The `Bool` records whether a
KERROR/KWARN diagnostic was emitted: `is_valid_block` failure (a NULL
block pointer `ptr - 40 == 0` per heap.c line 296, no genuine header at
`ptr - 40`, or header out of the arena bounds) and double free warn and
leave the state unchanged; a null `ptr` returns silently. -/
def kfree (s : HeapState) (ptr : Nat) : Bool × HeapState :=
  if ptr = 0 then (false, s)
  else
    let baddr := sub64 ptr HEAP_BLOCK_HEADER_SIZE
    if baddr = 0 then (true, s)
    else match findBlock s.blocks baddr with
    | none => (true, s)
    | some b =>
      if s.hstart ≤ baddr ∧ baddr < s.hend then
        if b.allocated then
          (false,
           { s with blocks := doFree s.blocks [] baddr
                    used := sub64 s.used b.size
                    free := add64 s.free b.size
                    frees := (s.frees + 1) % 4294967296 })
        else (true, s)
      else (true, s)

/-- `kcalloc` (heap.c lines 130-139): the request is `count * size` with
64-bit wraparound and no overflow check.  The third component is the
number of bytes zero-filled (`memory_set` length) on success. -/
def kcalloc (s : HeapState) (count size : Nat) : Option Nat × HeapState × Nat :=
  let total := (count * size) % U64
  match kmalloc s total with
  | (some p, s1) => (some p, s1, total)
  | (none, s1) => (none, s1, 0)

/-- `krealloc` (heap.c lines 147-182).  The third component is the number
of bytes copied (`memory_copy` length).  `is_valid_block` failure
(NULL block pointer, missing sentinel, or out of bounds) returns null
with the state untouched. -/
def krealloc (s : HeapState) (ptr n : Nat) : Option Nat × HeapState × Nat :=
  if ptr = 0 then
    ((kmalloc s n).1, (kmalloc s n).2, 0)
  else if n = 0 then
    (none, (kfree s ptr).2, 0)
  else
    let baddr := sub64 ptr HEAP_BLOCK_HEADER_SIZE
    if baddr = 0 then (none, s, 0)
    else match findBlock s.blocks baddr with
    | none => (none, s, 0)
    | some b =>
      if s.hstart ≤ baddr ∧ baddr < s.hend then
        let old := sub64 b.size HEAP_BLOCK_HEADER_SIZE
        if n ≤ old then (some ptr, s, 0)
        else
          match kmalloc s n with
          | (none, s1) => (none, s1, 0)
          | (some q, s1) => (some q, (kfree s1 ptr).2, old)
      else (none, s, 0)

/-! ### The heap block-list invariant -/

/-- Allocation flag of the first block (`true` for the empty list). -/
def headAlloc : List HBlock → Bool
  | [] => true
  | b :: _ => b.allocated

/-- No two consecutive blocks are both free (spec §8 "no adjacent free
blocks"). -/
def noAdjFree : List HBlock → Bool
  | [] => true
  | b :: rest => (b.allocated || headAlloc rest) && noAdjFree rest

/-- The blocks tile the address interval `[a, e)` contiguously:
each block starts where the previous one ended. -/
def tileOK : Nat → Nat → List HBlock → Bool
  | a, e, [] => a == e
  | a, e, b :: rest => (b.addr == a) && tileOK (a + b.size) e rest

/-- Sum of the block sizes. -/
def sumSizes (l : List HBlock) : Nat := (l.map HBlock.size).sum

/-- Size of the last block (0 for the empty list). -/
def lastSize : List HBlock → Nat
  | [] => 0
  | [b] => b.size
  | _ :: rest => lastSize rest

/-- Allocation flag of the last block (`true` for the empty list). -/
def lastAlloc : List HBlock → Bool
  | [] => true
  | [b] => b.allocated
  | _ :: rest => lastAlloc rest

/-- The state invariant the heap maintains: the block list tiles the
arena `[hstart, hend)` exactly, the arena lies below 2^64, the last block
is larger than `HEAP_MIN_BLOCK_SIZE`, and no two adjacent blocks are both
free. -/
def HInv (s : HeapState) : Prop :=
  tileOK s.hstart s.hend s.blocks = true ∧ s.hend < U64 ∧
  HEAP_MIN_BLOCK_SIZE < lastSize s.blocks ∧ noAdjFree s.blocks = true

/-- Heap states reachable from a `heap_init` over a sane arena (one that
fits below 2^64 after page rounding) by any sequence of allocator
calls. -/
inductive HReach : HeapState → Prop
  | init (start sz : Nat) (h : start + sz + 2 * PAGE_SIZE < U64) :
      HReach (heap_init start sz).2
  | malloc (s : HeapState) (n : Nat) : HReach s → HReach (kmalloc s n).2
  | free (s : HeapState) (ptr : Nat) : HReach s → HReach (kfree s ptr).2
  | calloc (s : HeapState) (c n : Nat) : HReach s → HReach (kcalloc s c n).2.1
  | realloc (s : HeapState) (ptr n : Nat) : HReach s → HReach (krealloc s ptr n).2.1

lemma tileOK_end (l : List HBlock) (x e : Nat) (h : tileOK x e l = true) :
    e = x + sumSizes l := by
  induction l generalizing x with
  | nil =>
    simp only [tileOK, beq_iff_eq] at h
    simp [sumSizes, h]
  | cons b rest ih =>
    simp only [tileOK, Bool.and_eq_true, beq_iff_eq] at h
    have := ih (x + b.size) h.2
    simp only [sumSizes, List.map_cons, List.sum_cons] at this ⊢
    omega

lemma lastSize_le_sumSizes (l : List HBlock) : lastSize l ≤ sumSizes l := by
  induction l with
  | nil => simp [lastSize, sumSizes]
  | cons b rest ih =>
    cases rest with
    | nil => simp [lastSize, sumSizes]
    | cons c rest' =>
      simp only [lastSize, sumSizes, List.map_cons, List.sum_cons] at ih ⊢
      omega

lemma lastSize_cons_cons (b c : HBlock) (l : List HBlock) :
    lastSize (b :: c :: l) = lastSize (c :: l) := rfl

lemma lastAlloc_cons_cons (b c : HBlock) (l : List HBlock) :
    lastAlloc (b :: c :: l) = lastAlloc (c :: l) := rfl

lemma lastSize_append_cons (l1 l2 : List HBlock) (b : HBlock) :
    lastSize (l1 ++ b :: l2) = lastSize (b :: l2) := by
  induction l1 with
  | nil => rfl
  | cons c l1' ih =>
    cases l1' with
    | nil => exact lastSize_cons_cons c b l2
    | cons d l1'' => simpa [lastSize_cons_cons] using ih

lemma lastAlloc_append_cons (l1 l2 : List HBlock) (b : HBlock) :
    lastAlloc (l1 ++ b :: l2) = lastAlloc (b :: l2) := by
  induction l1 with
  | nil => rfl
  | cons c l1' ih =>
    cases l1' with
    | nil => exact lastAlloc_cons_cons c b l2
    | cons d l1'' => simpa [lastAlloc_cons_cons] using ih

lemma tileOK_append (l1 l2 : List HBlock) (x e : Nat) :
    tileOK x e (l1 ++ l2) =
      (tileOK x (x + sumSizes l1) l1 && tileOK (x + sumSizes l1) e l2) := by
  induction l1 generalizing x with
  | nil => simp [tileOK, sumSizes]
  | cons b l1' ih =>
    simp only [List.cons_append, tileOK, sumSizes, List.map_cons, List.sum_cons,
      List.append_eq]
    rw [ih (x + b.size)]
    have : x + (b.size + (List.map HBlock.size l1').sum) =
        x + b.size + (List.map HBlock.size l1').sum := by omega
    rw [this]
    simp [sumSizes, Bool.and_assoc]

lemma noAdjFree_append_iff (l1 l2 : List HBlock) :
    noAdjFree (l1 ++ l2) = true ↔
      (noAdjFree l1 = true ∧ noAdjFree l2 = true ∧
        (lastAlloc l1 = true ∨ headAlloc l2 = true)) := by
  induction l1 with
  | nil => simp [noAdjFree, lastAlloc]
  | cons b l1' ih =>
    cases l1' with
    | nil =>
      cases l2 with
      | nil => simp [noAdjFree, lastAlloc, headAlloc]
      | cons c l2' =>
        simp only [List.singleton_append, noAdjFree, headAlloc, lastAlloc,
          Bool.and_eq_true, Bool.or_eq_true]
        tauto
    | cons c l1'' =>
      simp only [List.cons_append, noAdjFree, Bool.and_eq_true] at ih ⊢
      rw [lastAlloc_cons_cons]
      constructor
      · rintro ⟨h1, h2⟩
        have := ih.mp h2
        refine ⟨⟨?_, this.1⟩, this.2.1, this.2.2⟩
        simpa [headAlloc] using h1
      · rintro ⟨⟨h1, h2⟩, h3, h4⟩
        refine ⟨by simpa [headAlloc] using h1, ih.mpr ⟨h2, h3, h4⟩⟩

/-- Every block of a tiled list with a large last block lies inside the
arena, with at least 65 bytes from its start to the arena end (so its
payload pointer `addr + 40` is strictly inside `(x, e)`). -/
lemma blockBound (l : List HBlock) (x e : Nat) (htile : tileOK x e l = true)
    (hlast : HEAP_MIN_BLOCK_SIZE < lastSize l) :
    ∀ b ∈ l, x ≤ b.addr ∧ b.addr + HEAP_MIN_BLOCK_SIZE + 1 ≤ e := by
  induction l generalizing x with
  | nil => simp
  | cons c rest ih =>
    simp only [tileOK, Bool.and_eq_true, beq_iff_eq] at htile
    obtain ⟨hc, htile'⟩ := htile
    intro b hb
    rcases List.mem_cons.mp hb with rfl | hbrest
    · subst hc
      cases rest with
      | nil =>
        simp only [tileOK, beq_iff_eq] at htile'
        simp only [lastSize] at hlast
        omega
      | cons d rest' =>
        have hsum := tileOK_end _ _ _ htile'
        have hls := lastSize_le_sumSizes (d :: rest')
        simp only [lastSize_cons_cons] at hlast
        omega
    · cases rest with
      | nil => simp at hbrest
      | cons d rest' =>
        simp only [lastSize_cons_cons] at hlast
        have := ih (x + c.size) htile' hlast b hbrest
        omega

/-- What one successful `kmalloc` walk does to the block list: tiling,
the no-adjacent-free property, the head-allocated flag, the minimum last
block size, and nonemptiness are all preserved. -/
lemma allocWalk_spec (total : Nat) (bl : List HBlock) (p c : Nat)
    (bl' : List HBlock) (h : allocWalk total bl = some (p, c, bl')) :
    (∀ x e, e < U64 → tileOK x e bl = true → tileOK x e bl' = true) ∧
    (noAdjFree bl = true → noAdjFree bl' = true) ∧
    (headAlloc bl = true → headAlloc bl' = true) ∧
    (HEAP_MIN_BLOCK_SIZE < lastSize bl → HEAP_MIN_BLOCK_SIZE < lastSize bl') ∧
    bl' ≠ [] := by
  induction bl generalizing p c bl' with
  | nil => exact absurd h (by simp [allocWalk])
  | cons b rest ih =>
    unfold allocWalk at h
    split_ifs at h with hfit hsplit
    · -- found, split
      simp only [Option.some.injEq, Prod.mk.injEq] at h
      obtain ⟨-, -, h3⟩ := h
      subst h3
      obtain ⟨hbfree, hble⟩ := hfit
      refine ⟨?_, ?_, ?_, ?_, by simp⟩
      · intro x e he ht
        simp only [tileOK, Bool.and_eq_true, beq_iff_eq] at ht
        obtain ⟨hbx, ht'⟩ := ht
        have hend := tileOK_end rest (x + b.size) e ht'
        have hxt : x + total < U64 := by omega
        have haddr : add64 b.addr total = x + total := by
          rw [add64, hbx, Nat.mod_eq_of_lt hxt]
        simp only [tileOK, Bool.and_eq_true, beq_iff_eq]
        refine ⟨hbx, ?_⟩
        rw [haddr]
        simp only [tileOK, Bool.and_eq_true, beq_iff_eq]
        refine ⟨by trivial, ?_⟩
        have : x + total + (b.size - total) = x + b.size := by omega
        rw [this]
        exact ht'
      · intro hadj
        simp only [noAdjFree, Bool.and_eq_true, Bool.or_eq_true] at hadj ⊢
        simp only [headAlloc]
        have hba : b.allocated = false := by
          revert hbfree
          cases b.allocated <;> simp
        rcases hadj with ⟨hpair, hrest⟩
        rcases hpair with hb | hh
        · rw [hba] at hb
          exact absurd hb (by simp)
        · exact ⟨Or.inl (by trivial), Or.inr hh, hrest⟩
      · intro hh
        have hba : b.allocated = false := by
          revert hbfree
          cases b.allocated <;> simp
        simp only [headAlloc, hba] at hh
        exact absurd hh (by simp)
      · intro hl
        cases rest with
        | nil =>
          simp only [lastSize] at hl ⊢
          omega
        | cons d rest' =>
          simpa only [lastSize_cons_cons] using hl
    · -- found, handed out whole
      simp only [Option.some.injEq, Prod.mk.injEq] at h
      obtain ⟨-, -, h3⟩ := h
      subst h3
      refine ⟨?_, ?_, ?_, ?_, by simp⟩
      · intro x e he ht
        simpa only [tileOK] using ht
      · intro hadj
        simp only [noAdjFree, Bool.and_eq_true, Bool.or_eq_true] at hadj ⊢
        exact ⟨Or.inl (by trivial), hadj.2⟩
      · intro _
        simp [headAlloc]
      · intro hl
        cases rest with
        | nil => simpa only [lastSize] using hl
        | cons d rest' => simpa only [lastSize_cons_cons] using hl
    · -- not this block: walk the tail
      cases hw : allocWalk total rest with
      | none => rw [hw] at h; exact absurd h (by simp)
      | some val =>
        obtain ⟨p', c', bl''⟩ := val
        rw [hw] at h
        simp only [Option.some.injEq, Prod.mk.injEq] at h
        obtain ⟨-, -, h3⟩ := h
        subst h3
        obtain ⟨iht, ihadj, ihhead, ihlast, ihne⟩ := ih p' c' bl'' hw
        have hrestne : rest ≠ [] := by
          intro he
          rw [he] at hw
          simp [allocWalk] at hw
        refine ⟨?_, ?_, ?_, ?_, by simp⟩
        · intro x e he ht
          simp only [tileOK, Bool.and_eq_true, beq_iff_eq] at ht ⊢
          exact ⟨ht.1, iht _ _ he ht.2⟩
        · intro hadj
          simp only [noAdjFree, Bool.and_eq_true, Bool.or_eq_true] at hadj ⊢
          rcases hadj with ⟨hpair, hrest⟩
          refine ⟨?_, ihadj hrest⟩
          rcases hpair with hb | hh
          · exact Or.inl hb
          · exact Or.inr (ihhead hh)
        · intro hh
          simpa only [headAlloc] using hh
        · intro hl
          cases hbe : bl'' with
          | nil => exact absurd hbe ihne
          | cons u us =>
            rw [lastSize_cons_cons]
            rw [← hbe]
            apply ihlast
            cases rest with
            | nil => exact absurd rfl hrestne
            | cons d rest' => simpa only [lastSize_cons_cons] using hl

/-- What the forward merge loop does: starting from a (freed) block `b`
followed by `rest`, it yields a grown block with the same address and
flag whose following blocks start with an allocated one. -/
lemma absorbNext_spec (rest : List HBlock) (b : HBlock) (x e : Nat)
    (he : e < U64) (htile : tileOK x e (b :: rest) = true)
    (hadj : noAdjFree rest = true) :
    tileOK x e ((absorbNext b rest).1 :: (absorbNext b rest).2) = true ∧
    (absorbNext b rest).1.addr = b.addr ∧
    (absorbNext b rest).1.allocated = b.allocated ∧
    b.size ≤ (absorbNext b rest).1.size ∧
    headAlloc (absorbNext b rest).2 = true ∧
    noAdjFree (absorbNext b rest).2 = true ∧
    lastSize (b :: rest) ≤ lastSize ((absorbNext b rest).1 :: (absorbNext b rest).2) := by
  induction rest generalizing b with
  | nil =>
    simp only [absorbNext]
    exact ⟨htile, by trivial, by trivial, le_refl _, by trivial, by trivial, le_refl _⟩
  | cons n rest' ih =>
    by_cases hna : n.allocated
    · simp only [absorbNext, hna, if_pos]
      exact ⟨htile, by trivial, by trivial, le_refl _, by simpa [headAlloc] using hna, hadj, le_refl _⟩
    · have hstep : absorbNext b (n :: rest') =
          absorbNext { b with size := add64 b.size n.size } rest' := by
        simp [absorbNext, hna]
      simp only [tileOK, Bool.and_eq_true, beq_iff_eq] at htile
      obtain ⟨hbx, htile1⟩ := htile
      obtain ⟨hnx, htile2⟩ := htile1
      have hend := tileOK_end rest' (x + b.size + n.size) e htile2
      have hsz : add64 b.size n.size = b.size + n.size := by
        rw [add64, Nat.mod_eq_of_lt (by omega)]
      have htile' : tileOK x e ({ b with size := add64 b.size n.size } :: rest') = true := by
        simp only [tileOK, Bool.and_eq_true, beq_iff_eq, hsz]
        refine ⟨hbx, ?_⟩
        have : x + (b.size + n.size) = x + b.size + n.size := by omega
        rw [this]
        exact htile2
      have hadj' : noAdjFree rest' = true := by
        simp only [noAdjFree, Bool.and_eq_true] at hadj
        exact hadj.2
      obtain ⟨c1, c2, c3, c4, c5, c6, c7⟩ := ih _ htile' hadj'
      rw [hstep]
      refine ⟨c1, c2, c3, ?_, c5, c6, ?_⟩
      · have c4' : add64 b.size n.size ≤
            (absorbNext { b with size := add64 b.size n.size } rest').1.size := c4
        have hble : b.size ≤ add64 b.size n.size := by
          rw [hsz]
          omega
        exact le_trans hble c4'
      calc lastSize (b :: n :: rest')
      _ = lastSize (n :: rest') := lastSize_cons_cons _ _ _
      _ ≤ lastSize ({ b with size := add64 b.size n.size } :: rest') := by
          cases rest' with
          | nil =>
            show n.size ≤ add64 b.size n.size
            rw [hsz]
            omega
          | cons u us => rw [lastSize_cons_cons, lastSize_cons_cons]
      _ ≤ _ := c7

/-- What the backward merge loop does on the reversed prefix: the freed
block absorbs the free blocks immediately before it; the combined list
stays tiled and adjacent-free-free. -/
lemma absorbPrev_spec (rev : List HBlock) (b : HBlock) (rest2 : List HBlock)
    (x e : Nat) (he : e < U64) (hbfree : b.allocated = false)
    (htile : tileOK x e (rev.reverse ++ b :: rest2) = true)
    (hadjrev : noAdjFree rev.reverse = true)
    (hhead : headAlloc rest2 = true)
    (hadjrest : noAdjFree rest2 = true) :
    tileOK x e ((absorbPrev rev b).1.reverse ++ (absorbPrev rev b).2 :: rest2) = true ∧
    noAdjFree ((absorbPrev rev b).1.reverse ++ (absorbPrev rev b).2 :: rest2) = true ∧
    b.size ≤ (absorbPrev rev b).2.size ∧
    (absorbPrev rev b).2.allocated = false := by
  induction rev generalizing b with
  | nil =>
    simp only [absorbPrev, List.reverse_nil, List.nil_append] at htile ⊢
    refine ⟨htile, ?_, le_refl _, hbfree⟩
    simp only [noAdjFree, Bool.and_eq_true, Bool.or_eq_true]
    exact ⟨Or.inr hhead, hadjrest⟩
  | cons p rev' ih =>
    have hrevc : (p :: rev').reverse ++ b :: rest2 =
        rev'.reverse ++ p :: b :: rest2 := by
      simp
    by_cases hpa : p.allocated
    · simp only [absorbPrev, hpa, if_pos]
      refine ⟨htile, ?_, le_refl _, hbfree⟩
      rw [noAdjFree_append_iff]
      refine ⟨hadjrev, ?_, ?_⟩
      · simp only [noAdjFree, Bool.and_eq_true, Bool.or_eq_true]
        exact ⟨Or.inr hhead, hadjrest⟩
      · left
        rw [List.reverse_cons, lastAlloc_append_cons]
        simpa [lastAlloc] using hpa
    · have hstep : absorbPrev (p :: rev') b =
          absorbPrev rev' { p with size := add64 p.size b.size } := by
        simp [absorbPrev, hpa]
      rw [hrevc] at htile
      rw [tileOK_append] at htile
      simp only [Bool.and_eq_true] at htile
      obtain ⟨htrev, htcur⟩ := htile
      simp only [tileOK, Bool.and_eq_true, beq_iff_eq] at htcur
      obtain ⟨hpx, htcur1⟩ := htcur
      obtain ⟨hbx, htcur2⟩ := htcur1
      have hend := tileOK_end rest2 _ e htcur2
      have hsz : add64 p.size b.size = p.size + b.size := by
        rw [add64, Nat.mod_eq_of_lt (by omega)]
      have htile' : tileOK x e
          (rev'.reverse ++ { p with size := add64 p.size b.size } :: rest2) = true := by
        rw [tileOK_append]
        simp only [Bool.and_eq_true]
        refine ⟨htrev, ?_⟩
        simp only [tileOK, Bool.and_eq_true, beq_iff_eq, hsz]
        refine ⟨hpx, ?_⟩
        have : x + sumSizes rev'.reverse + (p.size + b.size) =
            x + sumSizes rev'.reverse + p.size + b.size := by omega
        rw [this]
        exact htcur2
      have hadjrev' : noAdjFree rev'.reverse = true := by
        rw [List.reverse_cons, noAdjFree_append_iff] at hadjrev
        exact hadjrev.1
      obtain ⟨c1, c2, c3, c4⟩ := ih _ (by simpa using hpa) htile' hadjrev'
      rw [hstep]
      refine ⟨c1, c2, ?_, c4⟩
      have c3' : add64 p.size b.size ≤
          (absorbPrev rev' { p with size := add64 p.size b.size }).2.size := c3
      have hble : b.size ≤ add64 p.size b.size := by
        rw [hsz]
        omega
      exact le_trans hble c3'

lemma lastSize_flag_irrelevant (b : HBlock) (v : Bool) (rest : List HBlock) :
    lastSize ({ b with allocated := v } :: rest) = lastSize (b :: rest) := by
  cases rest with
  | nil => rfl
  | cons u us => rfl

/-- `kfree`'s mark-free-and-merge pass preserves the block-list
invariant, for any target address. -/
lemma doFree_spec (bl : List HBlock) (rev : List HBlock) (a x e : Nat)
    (he : e < U64)
    (htile : tileOK x e (rev.reverse ++ bl) = true)
    (hadj : noAdjFree (rev.reverse ++ bl) = true)
    (hlast : HEAP_MIN_BLOCK_SIZE < lastSize (rev.reverse ++ bl)) :
    tileOK x e (doFree bl rev a) = true ∧
    noAdjFree (doFree bl rev a) = true ∧
    HEAP_MIN_BLOCK_SIZE < lastSize (doFree bl rev a) := by
  induction bl generalizing rev with
  | nil =>
    simp only [doFree]
    simp only [List.append_nil] at htile hadj hlast
    exact ⟨htile, hadj, hlast⟩
  | cons b rest ih =>
    by_cases hba : b.addr = a
    · have hfound : doFree (b :: rest) rev a =
          (absorbPrev rev (absorbNext { b with allocated := false } rest).1).1.reverse ++
            (absorbPrev rev (absorbNext { b with allocated := false } rest).1).2 ::
            (absorbNext { b with allocated := false } rest).2 := by
        unfold doFree
        rw [if_pos hba]
      rw [tileOK_append] at htile
      simp only [Bool.and_eq_true] at htile
      obtain ⟨htrev, htcur⟩ := htile
      rw [noAdjFree_append_iff] at hadj
      obtain ⟨hadjrev, hadjcur, hjoin⟩ := hadj
      have hadjrest : noAdjFree rest = true := by
        simp only [noAdjFree, Bool.and_eq_true] at hadjcur
        exact hadjcur.2
      have htcur1 : tileOK (x + sumSizes rev.reverse) e
          ({ b with allocated := false } :: rest) = true := htcur
      obtain ⟨an1, an2, an3, an4, an5, an6, an7⟩ :=
        absorbNext_spec rest { b with allocated := false }
          (x + sumSizes rev.reverse) e he htcur1 hadjrest
      have hcomb : tileOK x e
          (rev.reverse ++ (absorbNext { b with allocated := false } rest).1 ::
            (absorbNext { b with allocated := false } rest).2) = true := by
        rw [tileOK_append]
        simp only [Bool.and_eq_true]
        exact ⟨htrev, an1⟩
      obtain ⟨ap1, ap2, ap3, ap4⟩ :=
        absorbPrev_spec rev (absorbNext { b with allocated := false } rest).1
          (absorbNext { b with allocated := false } rest).2 x e he an3 hcomb
          hadjrev an5 an6
      rw [hfound]
      refine ⟨ap1, ap2, ?_⟩
      rw [lastSize_append_cons]
      rw [lastSize_append_cons] at hlast
      have h1 : lastSize (b :: rest) =
          lastSize ({ b with allocated := false } :: rest) :=
        (lastSize_flag_irrelevant b false rest).symm
      have h2 : lastSize ((absorbNext { b with allocated := false } rest).1 ::
          (absorbNext { b with allocated := false } rest).2) ≤
          lastSize ((absorbPrev rev (absorbNext { b with allocated := false } rest).1).2 ::
            (absorbNext { b with allocated := false } rest).2) := by
        cases hc : (absorbNext { b with allocated := false } rest).2 with
        | nil =>
          simp only [lastSize]
          exact ap3
        | cons u us =>
          rw [lastSize_cons_cons, lastSize_cons_cons]
      omega
    · have hstep : doFree (b :: rest) rev a = doFree rest (b :: rev) a := by
        simp only [doFree]
        rw [if_neg hba]
      have hre : (b :: rev).reverse ++ rest = rev.reverse ++ b :: rest := by
        simp
      rw [hstep]
      exact ih (b :: rev) (by rw [hre]; exact htile) (by rw [hre]; exact hadj)
        (by rw [hre]; exact hlast)

/-- `x & ~(PAGE_SIZE - 1)` at 64 bits clears the low 12 bits: it rounds
`x` down to a page multiple. -/
lemma land_maskHi (x : Nat) (hx : x < U64) :
    x &&& (U64 - PAGE_SIZE) = x / PAGE_SIZE * PAGE_SIZE := by
  have hr : x / PAGE_SIZE * PAGE_SIZE = (x >>> 12) <<< 12 := by
    rw [Nat.shiftRight_eq_div_pow, Nat.shiftLeft_eq]
    norm_num [PAGE_SIZE]
  have hm : U64 - PAGE_SIZE = (2 ^ 52 - 1) <<< 12 := by
    rw [Nat.shiftLeft_eq]
    norm_num [U64, PAGE_SIZE]
  rw [hr, hm]
  apply Nat.eq_of_testBit_eq
  intro i
  rw [Nat.testBit_land, Nat.testBit_shiftLeft, Nat.testBit_shiftLeft,
    Nat.testBit_shiftRight, Nat.testBit_two_pow_sub_one]
  by_cases h12 : 12 ≤ i
  · by_cases h64 : i < 64
    · have : 12 + (i - 12) = i := by omega
      simp [h12, this, show i - 12 < 52 by omega]
    · have hxi : x.testBit i = false := by
        apply Nat.testBit_eq_false_of_lt
        have h1 : U64 = 2 ^ 64 := by norm_num [U64]
        have h2 : (2 : Nat) ^ 64 ≤ 2 ^ i := Nat.pow_le_pow_right (by omega) (by omega)
        omega
      have : 12 + (i - 12) = i := by omega
      simp [h12, this, hxi, show ¬(i - 12 < 52) by omega]
  · simp [h12]

/-- `heap_init` over a sane arena establishes the invariant. -/
lemma heap_init_inv (start sz : Nat) (h : start + sz + 2 * PAGE_SIZE < U64) :
    HInv (heap_init start sz).2 := by
  unfold heap_init
  dsimp only
  set sz1 := if sz < PAGE_SIZE then PAGE_SIZE else sz with hsz1
  have hsz1b : PAGE_SIZE ≤ sz1 ∧ sz1 ≤ sz + PAGE_SIZE := by
    rw [hsz1]
    split_ifs <;> omega
  have hlt : sz1 + (PAGE_SIZE - 1) < U64 := by
    simp only [PAGE_SIZE, U64] at *
    omega
  have hadd : add64 sz1 (PAGE_SIZE - 1) = sz1 + (PAGE_SIZE - 1) := by
    rw [add64, Nat.mod_eq_of_lt hlt]
  rw [hadd, land_maskHi _ hlt]
  set sz2 := (sz1 + (PAGE_SIZE - 1)) / PAGE_SIZE * PAGE_SIZE with hsz2
  have hsz2b : sz1 ≤ sz2 ∧ sz2 ≤ sz1 + (PAGE_SIZE - 1) := by
    rw [hsz2]
    simp only [PAGE_SIZE] at *
    omega
  have hend : add64 start sz2 = start + sz2 := by
    rw [add64, Nat.mod_eq_of_lt]
    simp only [PAGE_SIZE, U64] at *
    omega
  rw [hend]
  refine ⟨?_, ?_, ?_, ?_⟩
  · simp [tileOK]
  · simp only [PAGE_SIZE, U64] at *
    omega
  · show HEAP_MIN_BLOCK_SIZE < sz2
    simp only [PAGE_SIZE, HEAP_MIN_BLOCK_SIZE] at *
    omega
  · simp [noAdjFree, headAlloc]

/-- Branch equations for `kmalloc`. -/
lemma kmalloc_zero (s : HeapState) : kmalloc s 0 = (none, s) := rfl

lemma kmalloc_none (s : HeapState) (n : Nat) (hn : n ≠ 0)
    (hw : allocWalk (add64 (alignUp16 n) HEAP_BLOCK_HEADER_SIZE) s.blocks = none) :
    kmalloc s n = (none, s) := by
  unfold kmalloc
  rw [if_neg hn]
  dsimp only
  rw [hw]

lemma kmalloc_some (s : HeapState) (n p c : Nat) (bl : List HBlock) (hn : n ≠ 0)
    (hw : allocWalk (add64 (alignUp16 n) HEAP_BLOCK_HEADER_SIZE) s.blocks =
      some (p, c, bl)) :
    kmalloc s n =
      (some p,
       { s with blocks := bl
                used := add64 s.used c
                free := sub64 s.free c
                allocations := (s.allocations + 1) % 4294967296 }) := by
  unfold kmalloc
  rw [if_neg hn]
  dsimp only
  rw [hw]

/-- `kmalloc` preserves the invariant. -/
lemma kmalloc_inv (s : HeapState) (n : Nat) (h : HInv s) :
    HInv (kmalloc s n).2 := by
  obtain ⟨htile, he, hlast, hadj⟩ := h
  by_cases hn : n = 0
  · rw [hn, kmalloc_zero]
    exact ⟨htile, he, hlast, hadj⟩
  · cases hw : allocWalk (add64 (alignUp16 n) HEAP_BLOCK_HEADER_SIZE) s.blocks with
    | none =>
      rw [kmalloc_none s n hn hw]
      exact ⟨htile, he, hlast, hadj⟩
    | some val =>
      obtain ⟨p, c, bl⟩ := val
      rw [kmalloc_some s n p c bl hn hw]
      obtain ⟨wt, wadj, -, wlast, -⟩ := allocWalk_spec _ _ _ _ _ hw
      exact ⟨wt _ _ he htile, he, wlast hlast, wadj hadj⟩

/-- A failed `kmalloc` leaves the state unchanged. -/
lemma kmalloc_fail (s : HeapState) (n : Nat) (h : (kmalloc s n).1 = none) :
    (kmalloc s n).2 = s := by
  by_cases hn : n = 0
  · rw [hn, kmalloc_zero]
  · cases hw : allocWalk (add64 (alignUp16 n) HEAP_BLOCK_HEADER_SIZE) s.blocks with
    | none => rw [kmalloc_none s n hn hw]
    | some val =>
      obtain ⟨p, c, bl⟩ := val
      rw [kmalloc_some s n p c bl hn hw] at h
      simp at h

/-- Branch equations for `kfree`. -/
lemma kfree_null (s : HeapState) : kfree s 0 = (false, s) := rfl

lemma kfree_nullblock (s : HeapState) (ptr : Nat) (hp : ptr ≠ 0)
    (hb0 : sub64 ptr HEAP_BLOCK_HEADER_SIZE = 0) :
    kfree s ptr = (true, s) := by
  unfold kfree
  rw [if_neg hp]
  dsimp only
  rw [if_pos hb0]

lemma kfree_nofind (s : HeapState) (ptr : Nat) (hp : ptr ≠ 0)
    (hb0 : sub64 ptr HEAP_BLOCK_HEADER_SIZE ≠ 0)
    (hf : findBlock s.blocks (sub64 ptr HEAP_BLOCK_HEADER_SIZE) = none) :
    kfree s ptr = (true, s) := by
  unfold kfree
  rw [if_neg hp]
  dsimp only
  rw [if_neg hb0]
  rw [hf]

lemma kfree_oob (s : HeapState) (ptr : Nat) (b : HBlock) (hp : ptr ≠ 0)
    (hb0 : sub64 ptr HEAP_BLOCK_HEADER_SIZE ≠ 0)
    (hf : findBlock s.blocks (sub64 ptr HEAP_BLOCK_HEADER_SIZE) = some b)
    (hb : ¬(s.hstart ≤ sub64 ptr HEAP_BLOCK_HEADER_SIZE ∧
      sub64 ptr HEAP_BLOCK_HEADER_SIZE < s.hend)) :
    kfree s ptr = (true, s) := by
  unfold kfree
  rw [if_neg hp]
  dsimp only
  rw [if_neg hb0]
  rw [hf]
  dsimp only
  rw [if_neg hb]

lemma kfree_already_free (s : HeapState) (ptr : Nat) (b : HBlock) (hp : ptr ≠ 0)
    (hb0 : sub64 ptr HEAP_BLOCK_HEADER_SIZE ≠ 0)
    (hf : findBlock s.blocks (sub64 ptr HEAP_BLOCK_HEADER_SIZE) = some b)
    (hb : s.hstart ≤ sub64 ptr HEAP_BLOCK_HEADER_SIZE ∧
      sub64 ptr HEAP_BLOCK_HEADER_SIZE < s.hend)
    (hba : b.allocated = false) :
    kfree s ptr = (true, s) := by
  unfold kfree
  rw [if_neg hp]
  dsimp only
  rw [if_neg hb0]
  rw [hf]
  dsimp only
  rw [if_pos hb, hba]
  rfl

lemma kfree_frees (s : HeapState) (ptr : Nat) (b : HBlock) (hp : ptr ≠ 0)
    (hb0 : sub64 ptr HEAP_BLOCK_HEADER_SIZE ≠ 0)
    (hf : findBlock s.blocks (sub64 ptr HEAP_BLOCK_HEADER_SIZE) = some b)
    (hb : s.hstart ≤ sub64 ptr HEAP_BLOCK_HEADER_SIZE ∧
      sub64 ptr HEAP_BLOCK_HEADER_SIZE < s.hend)
    (hba : b.allocated = true) :
    kfree s ptr =
      (false,
       { s with blocks := doFree s.blocks [] (sub64 ptr HEAP_BLOCK_HEADER_SIZE)
                used := sub64 s.used b.size
                free := add64 s.free b.size
                frees := (s.frees + 1) % 4294967296 }) := by
  unfold kfree
  rw [if_neg hp]
  dsimp only
  rw [if_neg hb0]
  rw [hf]
  dsimp only
  rw [if_pos hb, hba]
  rfl

/-- `kfree` preserves the invariant. -/
lemma kfree_inv (s : HeapState) (ptr : Nat) (h : HInv s) :
    HInv (kfree s ptr).2 := by
  obtain ⟨htile, he, hlast, hadj⟩ := h
  by_cases hp : ptr = 0
  · rw [hp, kfree_null]
    exact ⟨htile, he, hlast, hadj⟩
  · by_cases hb0 : sub64 ptr HEAP_BLOCK_HEADER_SIZE = 0
    · rw [kfree_nullblock s ptr hp hb0]
      exact ⟨htile, he, hlast, hadj⟩
    · cases hf : findBlock s.blocks (sub64 ptr HEAP_BLOCK_HEADER_SIZE) with
      | none =>
        rw [kfree_nofind s ptr hp hb0 hf]
        exact ⟨htile, he, hlast, hadj⟩
      | some b =>
        by_cases hbnd : s.hstart ≤ sub64 ptr HEAP_BLOCK_HEADER_SIZE ∧
            sub64 ptr HEAP_BLOCK_HEADER_SIZE < s.hend
        · cases hba : b.allocated with
          | false =>
            rw [kfree_already_free s ptr b hp hb0 hf hbnd hba]
            exact ⟨htile, he, hlast, hadj⟩
          | true =>
            rw [kfree_frees s ptr b hp hb0 hf hbnd hba]
            obtain ⟨d1, d2, d3⟩ := doFree_spec s.blocks []
              (sub64 ptr HEAP_BLOCK_HEADER_SIZE) s.hstart s.hend he
              (by simpa using htile) (by simpa using hadj) (by simpa using hlast)
            exact ⟨d1, he, d3, d2⟩
        · rw [kfree_oob s ptr b hp hb0 hf hbnd]
          exact ⟨htile, he, hlast, hadj⟩

/-- The state component of `kcalloc` is that of the underlying
`kmalloc`. -/
lemma kcalloc_state (s : HeapState) (c n : Nat) :
    (kcalloc s c n).2.1 = (kmalloc s ((c * n) % U64)).2 := by
  unfold kcalloc
  dsimp only
  cases hw : kmalloc s ((c * n) % U64) with
  | mk fst snd =>
    cases fst with
    | none => rfl
    | some q => rfl

/-- Branch equations for `krealloc`. -/
lemma krealloc_null (s : HeapState) (n : Nat) :
    krealloc s 0 n = ((kmalloc s n).1, (kmalloc s n).2, 0) := by
  unfold krealloc
  rw [if_pos rfl]

lemma krealloc_zero (s : HeapState) (ptr : Nat) (hp : ptr ≠ 0) :
    krealloc s ptr 0 = (none, (kfree s ptr).2, 0) := by
  unfold krealloc
  rw [if_neg hp, if_pos rfl]

lemma krealloc_nullblock (s : HeapState) (ptr n : Nat) (hp : ptr ≠ 0) (hn : n ≠ 0)
    (hb0 : sub64 ptr HEAP_BLOCK_HEADER_SIZE = 0) :
    krealloc s ptr n = (none, s, 0) := by
  unfold krealloc
  rw [if_neg hp, if_neg hn]
  dsimp only
  rw [if_pos hb0]

lemma krealloc_nofind (s : HeapState) (ptr n : Nat) (hp : ptr ≠ 0) (hn : n ≠ 0)
    (hb0 : sub64 ptr HEAP_BLOCK_HEADER_SIZE ≠ 0)
    (hf : findBlock s.blocks (sub64 ptr HEAP_BLOCK_HEADER_SIZE) = none) :
    krealloc s ptr n = (none, s, 0) := by
  unfold krealloc
  rw [if_neg hp, if_neg hn]
  dsimp only
  rw [if_neg hb0]
  rw [hf]

lemma krealloc_oob (s : HeapState) (ptr n : Nat) (b : HBlock) (hp : ptr ≠ 0)
    (hn : n ≠ 0)
    (hb0 : sub64 ptr HEAP_BLOCK_HEADER_SIZE ≠ 0)
    (hf : findBlock s.blocks (sub64 ptr HEAP_BLOCK_HEADER_SIZE) = some b)
    (hb : ¬(s.hstart ≤ sub64 ptr HEAP_BLOCK_HEADER_SIZE ∧
      sub64 ptr HEAP_BLOCK_HEADER_SIZE < s.hend)) :
    krealloc s ptr n = (none, s, 0) := by
  unfold krealloc
  rw [if_neg hp, if_neg hn]
  dsimp only
  rw [if_neg hb0]
  rw [hf]
  dsimp only
  rw [if_neg hb]

lemma krealloc_fits (s : HeapState) (ptr n : Nat) (b : HBlock) (hp : ptr ≠ 0)
    (hn : n ≠ 0)
    (hb0 : sub64 ptr HEAP_BLOCK_HEADER_SIZE ≠ 0)
    (hf : findBlock s.blocks (sub64 ptr HEAP_BLOCK_HEADER_SIZE) = some b)
    (hb : s.hstart ≤ sub64 ptr HEAP_BLOCK_HEADER_SIZE ∧
      sub64 ptr HEAP_BLOCK_HEADER_SIZE < s.hend)
    (hfits : n ≤ sub64 b.size HEAP_BLOCK_HEADER_SIZE) :
    krealloc s ptr n = (some ptr, s, 0) := by
  unfold krealloc
  rw [if_neg hp, if_neg hn]
  dsimp only
  rw [if_neg hb0]
  rw [hf]
  dsimp only
  rw [if_pos hb, if_pos hfits]

lemma krealloc_grow_fail (s : HeapState) (ptr n : Nat) (b : HBlock) (hp : ptr ≠ 0)
    (hn : n ≠ 0)
    (hb0 : sub64 ptr HEAP_BLOCK_HEADER_SIZE ≠ 0)
    (hf : findBlock s.blocks (sub64 ptr HEAP_BLOCK_HEADER_SIZE) = some b)
    (hb : s.hstart ≤ sub64 ptr HEAP_BLOCK_HEADER_SIZE ∧
      sub64 ptr HEAP_BLOCK_HEADER_SIZE < s.hend)
    (hfits : ¬(n ≤ sub64 b.size HEAP_BLOCK_HEADER_SIZE))
    (hw : (kmalloc s n).1 = none) :
    krealloc s ptr n = (none, s, 0) := by
  unfold krealloc
  rw [if_neg hp, if_neg hn]
  dsimp only
  rw [if_neg hb0]
  rw [hf]
  dsimp only
  rw [if_pos hb, if_neg hfits]
  have hs1 : kmalloc s n = (none, s) := by
    have h2 := kmalloc_fail s n hw
    cases hmk : kmalloc s n with
    | mk fst snd =>
      rw [hmk] at hw h2
      simp only at hw h2
      rw [hw, h2]
  rw [hs1]

lemma krealloc_grow (s : HeapState) (ptr n q : Nat) (b : HBlock) (hp : ptr ≠ 0)
    (hn : n ≠ 0)
    (hb0 : sub64 ptr HEAP_BLOCK_HEADER_SIZE ≠ 0)
    (hf : findBlock s.blocks (sub64 ptr HEAP_BLOCK_HEADER_SIZE) = some b)
    (hb : s.hstart ≤ sub64 ptr HEAP_BLOCK_HEADER_SIZE ∧
      sub64 ptr HEAP_BLOCK_HEADER_SIZE < s.hend)
    (hfits : ¬(n ≤ sub64 b.size HEAP_BLOCK_HEADER_SIZE))
    (hw : (kmalloc s n).1 = some q) :
    krealloc s ptr n =
      (some q, (kfree (kmalloc s n).2 ptr).2, sub64 b.size HEAP_BLOCK_HEADER_SIZE) := by
  unfold krealloc
  rw [if_neg hp, if_neg hn]
  dsimp only
  rw [if_neg hb0]
  rw [hf]
  dsimp only
  rw [if_pos hb, if_neg hfits]
  cases hmk : kmalloc s n with
  | mk fst snd =>
    rw [hmk] at hw
    simp only at hw
    rw [hw]

/-- `krealloc` preserves the invariant. -/
lemma krealloc_inv (s : HeapState) (ptr n : Nat) (h : HInv s) :
    HInv (krealloc s ptr n).2.1 := by
  by_cases hp : ptr = 0
  · rw [hp, krealloc_null]
    exact kmalloc_inv s n h
  · by_cases hn : n = 0
    · rw [hn, krealloc_zero s ptr hp]
      exact kfree_inv s ptr h
    · by_cases hb0 : sub64 ptr HEAP_BLOCK_HEADER_SIZE = 0
      · rw [krealloc_nullblock s ptr n hp hn hb0]
        exact h
      · cases hf : findBlock s.blocks (sub64 ptr HEAP_BLOCK_HEADER_SIZE) with
        | none =>
          rw [krealloc_nofind s ptr n hp hn hb0 hf]
          exact h
        | some b =>
          by_cases hbnd : s.hstart ≤ sub64 ptr HEAP_BLOCK_HEADER_SIZE ∧
              sub64 ptr HEAP_BLOCK_HEADER_SIZE < s.hend
          · by_cases hfits : n ≤ sub64 b.size HEAP_BLOCK_HEADER_SIZE
            · rw [krealloc_fits s ptr n b hp hn hb0 hf hbnd hfits]
              exact h
            · cases hw : (kmalloc s n).1 with
              | none =>
                rw [krealloc_grow_fail s ptr n b hp hn hb0 hf hbnd hfits hw]
                exact h
              | some q =>
                rw [krealloc_grow s ptr n q b hp hn hb0 hf hbnd hfits hw]
                exact kfree_inv _ ptr (kmalloc_inv s n h)
          · rw [krealloc_oob s ptr n b hp hn hb0 hf hbnd]
            exact h

/-- Every reachable heap state satisfies the invariant. -/
lemma heap_reach_inv (s : HeapState) (h : HReach s) : HInv s := by
  induction h with
  | init start sz hs => exact heap_init_inv start sz hs
  | malloc s n _ ih => exact kmalloc_inv s n ih
  | free s ptr _ ih => exact kfree_inv s ptr ih
  | calloc s c n _ ih =>
    rw [kcalloc_state]
    exact kmalloc_inv s _ ih
  | realloc s ptr n _ ih => exact krealloc_inv s ptr n ih

lemma sub64_eq_sub (ptr m : Nat) (hm : m ≤ ptr) (hlt : ptr < U64) (hmU : m < U64) :
    sub64 ptr m = ptr - m := by
  rw [sub64, Nat.mod_eq_of_lt hlt, Nat.mod_eq_of_lt hmU]
  have : ptr + U64 - m = U64 + (ptr - m) := by omega
  rw [this, Nat.add_mod_left, Nat.mod_eq_of_lt (by omega)]

lemma sub64_eq_wrap (ptr m : Nat) (hm : ptr < m) (hmU : m < U64) :
    sub64 ptr m = ptr + U64 - m := by
  rw [sub64]
  rw [Nat.mod_eq_of_lt (show ptr < U64 by omega)]
  rw [Nat.mod_eq_of_lt hmU]
  rw [Nat.mod_eq_of_lt (show ptr + U64 - m < U64 by omega)]

/-- In an invariant-satisfying heap, no genuine block header lives at
`ptr - 40` (64-bit wrapped) for a pointer outside the open arena
interval: every genuine payload pointer is strictly inside
`(hstart, hend)`. -/
lemma findBlock_none_of_outside (s : HeapState) (ptr : Nat) (h : HInv s)
    (hptr : ptr < U64)
    (hout : ptr < s.hstart ∨ s.hend ≤ ptr) :
    findBlock s.blocks (sub64 ptr HEAP_BLOCK_HEADER_SIZE) = none := by
  obtain ⟨htile, he, hlast, hadj⟩ := h
  cases hfind : findBlock s.blocks (sub64 ptr HEAP_BLOCK_HEADER_SIZE) with
  | none => rfl
  | some b =>
    exfalso
    have hmem : b ∈ s.blocks := List.mem_of_find?_eq_some hfind
    have haddr : b.addr = sub64 ptr HEAP_BLOCK_HEADER_SIZE := by
      have := List.find?_some hfind
      simpa [beq_iff_eq] using this
    have hbound := blockBound s.blocks s.hstart s.hend htile hlast b hmem
    have hm40 : (HEAP_BLOCK_HEADER_SIZE : Nat) < U64 := by
      rw [HEAP_BLOCK_HEADER_SIZE, U64]
      omega
    by_cases hge : HEAP_BLOCK_HEADER_SIZE ≤ ptr
    · rw [sub64_eq_sub ptr _ hge hptr hm40] at haddr
      rw [HEAP_MIN_BLOCK_SIZE] at hbound
      rw [HEAP_BLOCK_HEADER_SIZE] at haddr
      omega
    · rw [sub64_eq_wrap ptr _ (by omega) hm40] at haddr
      rw [HEAP_MIN_BLOCK_SIZE] at hbound
      rw [HEAP_BLOCK_HEADER_SIZE] at haddr hge
      rw [U64] at haddr
      rw [U64] at he
      omega

/-! ### Claims C4, C5, C6, C7, C8, C9 -/

/-- C4 (amended): `heap_init(base, size)` with `size` smaller than one
page does NOT fail; it clamps the size up to exactly one page, returns 0
(success) and installs a single free block spanning the one-page
arena. -/
theorem heap_init_small_size_clamped (start sz : Nat) (h : sz < PAGE_SIZE) :
    heap_init start sz =
      (0, { hstart := start
            hend := add64 start PAGE_SIZE
            hsize := PAGE_SIZE
            used := 0
            free := PAGE_SIZE
            blocks := [{ addr := start, size := PAGE_SIZE, allocated := false }]
            allocations := 0
            frees := 0 }) := by
  unfold heap_init
  dsimp only
  rw [if_pos h]
  have hc : add64 PAGE_SIZE (PAGE_SIZE - 1) &&& (U64 - PAGE_SIZE) = PAGE_SIZE := by
    decide
  rw [hc]

/-- C4 witness: `heap_init(0x40000000, 100)` succeeds with a one-page
arena. -/
theorem heap_init_small_size_clamped_witness :
    heap_init 0x40000000 100 =
      (0, { hstart := 0x40000000
            hend := add64 0x40000000 PAGE_SIZE
            hsize := PAGE_SIZE
            used := 0
            free := PAGE_SIZE
            blocks := [{ addr := 0x40000000, size := PAGE_SIZE, allocated := false }]
            allocations := 0
            frees := 0 }) :=
  heap_init_small_size_clamped 0x40000000 100 (by decide)

/-- C4 counterexample: `heap_init(0x40000000, 100)` returns 0 — not a
negative error code — and installs a (non-empty) heap arena, so the
claim that it fails is false. -/
theorem heap_init_small_size_no_failure :
    (heap_init 0x40000000 100).1 = 0 ∧
    ¬((heap_init 0x40000000 100).1 < 0) ∧
    (heap_init 0x40000000 100).2.blocks ≠ [] := by
  refine ⟨by decide, by decide, by decide⟩

/-- C5 (code bug): on a 16-byte aligned arena, the very first `kmalloc`
returns `start + 40`; since the header size 40 is not a multiple of
`HEAP_ALIGNMENT = 16`, the returned payload pointer is only 8-byte
aligned (≡ 8 mod 16), violating the allocator's declared alignment. -/
theorem kmalloc_payload_misaligned :
    (kmalloc (heap_init 0x100000 0x100000).2 16).1 = some 0x100028 ∧
    (0x100000 : Nat) % HEAP_ALIGNMENT = 0 ∧
    (0x100028 : Nat) % HEAP_ALIGNMENT = 8 ∧
    HEAP_BLOCK_HEADER_SIZE % HEAP_ALIGNMENT = 8 := by
  refine ⟨by decide, by decide, by decide, by decide⟩

/-- C6 (amended): in any reachable heap state, `kfree` on a pointer
outside the arena bounds, or one whose preceding 40 bytes are not a
genuine block header, emits a diagnostic and leaves the state (block
list, byte counters, allocation/free counters) unchanged — except for
the null pointer, which is ignored silently (no diagnostic), also
without state change. -/
theorem kfree_invalid_pointer_noop (s : HeapState) (ptr : Nat) (h : HReach s)
    (hptr : ptr < U64)
    (hbad : ptr < s.hstart ∨ s.hend ≤ ptr ∨
      findBlock s.blocks (sub64 ptr HEAP_BLOCK_HEADER_SIZE) = none) :
    (ptr ≠ 0 → kfree s ptr = (true, s)) ∧ (ptr = 0 → kfree s ptr = (false, s)) := by
  constructor
  · intro hp0
    by_cases hb0 : sub64 ptr HEAP_BLOCK_HEADER_SIZE = 0
    · exact kfree_nullblock s ptr hp0 hb0
    · have hnone : findBlock s.blocks (sub64 ptr HEAP_BLOCK_HEADER_SIZE) = none := by
        rcases hbad with hlo | hhi | hn
        · exact findBlock_none_of_outside s ptr (heap_reach_inv s h) hptr (Or.inl hlo)
        · exact findBlock_none_of_outside s ptr (heap_reach_inv s h) hptr (Or.inr hhi)
        · exact hn
      exact kfree_nofind s ptr hp0 hb0 hnone
  · intro hp0
    rw [hp0, kfree_null]

/-- C6 counterexample: the claim demands a warning for every pointer
outside the arena, but `kfree(NULL)` returns silently: on the freshly
initialized arena at 0x100000 (so 0 is outside the bounds), the
diagnostic flag is false. -/
theorem kfree_null_pointer_silent :
    (heap_init 0x100000 0x1000).2 =
      { hstart := 0x100000, hend := 0x101000, hsize := 0x1000, used := 0,
        free := 0x1000,
        blocks := [{ addr := 0x100000, size := 0x1000, allocated := false }],
        allocations := 0, frees := 0 } ∧
    kfree { hstart := 0x100000, hend := 0x101000, hsize := 0x1000, used := 0,
            free := 0x1000,
            blocks := [{ addr := 0x100000, size := 0x1000, allocated := false }],
            allocations := 0, frees := 0 } 0 =
      (false,
       { hstart := 0x100000, hend := 0x101000, hsize := 0x1000, used := 0,
         free := 0x1000,
         blocks := [{ addr := 0x100000, size := 0x1000, allocated := false }],
         allocations := 0, frees := 0 }) ∧
    (0 : Nat) < 0x100000 := by
  refine ⟨by decide, by decide, by decide⟩

/-- C6 witness: freeing the out-of-arena pointer 0x50 on the fresh
arena warns and changes nothing; freeing null is silent and changes
nothing. -/
theorem kfree_invalid_pointer_noop_witness :
    kfree { hstart := 0x100000, hend := 0x101000, hsize := 0x1000, used := 0,
            free := 0x1000,
            blocks := [{ addr := 0x100000, size := 0x1000, allocated := false }],
            allocations := 0, frees := 0 } 0x50 =
      (true,
       { hstart := 0x100000, hend := 0x101000, hsize := 0x1000, used := 0,
         free := 0x1000,
         blocks := [{ addr := 0x100000, size := 0x1000, allocated := false }],
         allocations := 0, frees := 0 }) := by
  have h0 : (heap_init 0x100000 0x1000).2 =
      { hstart := 0x100000, hend := 0x101000, hsize := 0x1000, used := 0,
        free := 0x1000,
        blocks := [{ addr := 0x100000, size := 0x1000, allocated := false }],
        allocations := 0, frees := 0 } := by decide
  have hr := HReach.init 0x100000 0x1000 (by decide)
  rw [h0] at hr
  exact (kfree_invalid_pointer_noop _ 0x50 hr (by decide)
    (Or.inl (by decide))).1 (by decide)

/-- C7 (confirmed): after any `kfree` call on a reachable heap state,
no two consecutive blocks of the block list are both free. -/
theorem kfree_no_adjacent_free (s : HeapState) (ptr : Nat) (h : HReach s) :
    noAdjFree (kfree s ptr).2.blocks = true :=
  (kfree_inv s ptr (heap_reach_inv s h)).2.2.2

/-- C7 witness: freeing the single allocation of a fresh arena leaves
a list with no two adjacent free blocks (the freed block coalesces with
the free remainder). -/
theorem kfree_no_adjacent_free_witness :
    noAdjFree (kfree
      { hstart := 0x100000, hend := 0x101000, hsize := 0x1000, used := 56,
        free := 4040,
        blocks := [{ addr := 0x100000, size := 56, allocated := true },
                   { addr := 0x100038, size := 4040, allocated := false }],
        allocations := 1, frees := 0 } 0x100028).2.blocks = true := by
  have h0 : (kmalloc (heap_init 0x100000 0x1000).2 16).2 =
      { hstart := 0x100000, hend := 0x101000, hsize := 0x1000, used := 56,
        free := 4040,
        blocks := [{ addr := 0x100000, size := 56, allocated := true },
                   { addr := 0x100038, size := 4040, allocated := false }],
        allocations := 1, frees := 0 } := by decide
  have hr := HReach.malloc _ 16 (HReach.init 0x100000 0x1000 (by decide))
  rw [h0] at hr
  exact kfree_no_adjacent_free _ 0x100028 hr

/-- C8 (amended): the `krealloc` contract.  Null pointer behaves as
`kmalloc`; zero size frees and returns null; a genuine block whose
payload capacity already satisfies `n` is returned unchanged; otherwise
a new block is allocated, the old payload size (the minimum of old and
new) is copied, the old block is freed and the new pointer returned; a
failed allocation returns null with the state untouched.  Exception, as
the claim's unrestricted form misses: a pointer whose block header would
sit at address 0 — the payload of the first block of an arena based at
address 0 — fails `is_valid_block`'s NULL check (heap.c line 296), and
`krealloc` returns null with the state untouched even though the block
is genuine and satisfies `n`. -/
theorem krealloc_contract (s : HeapState) (ptr n q : Nat) (b : HBlock)
    (h : HReach s) :
    (krealloc s 0 n = ((kmalloc s n).1, (kmalloc s n).2, 0)) ∧
    (ptr ≠ 0 → krealloc s ptr 0 = (none, (kfree s ptr).2, 0)) ∧
    (ptr ≠ 0 → n ≠ 0 → sub64 ptr HEAP_BLOCK_HEADER_SIZE = 0 →
      krealloc s ptr n = (none, s, 0)) ∧
    (ptr ≠ 0 → n ≠ 0 → sub64 ptr HEAP_BLOCK_HEADER_SIZE ≠ 0 →
      findBlock s.blocks (sub64 ptr HEAP_BLOCK_HEADER_SIZE) = some b →
      ((n ≤ sub64 b.size HEAP_BLOCK_HEADER_SIZE →
          krealloc s ptr n = (some ptr, s, 0)) ∧
       (¬(n ≤ sub64 b.size HEAP_BLOCK_HEADER_SIZE) →
         ((kmalloc s n).1 = none → krealloc s ptr n = (none, s, 0)) ∧
         ((kmalloc s n).1 = some q →
           krealloc s ptr n =
             (some q, (kfree (kmalloc s n).2 ptr).2,
              sub64 b.size HEAP_BLOCK_HEADER_SIZE) ∧
           sub64 b.size HEAP_BLOCK_HEADER_SIZE =
             min (sub64 b.size HEAP_BLOCK_HEADER_SIZE) n)))) := by
  obtain ⟨htile, he, hlast, hadj⟩ := heap_reach_inv s h
  refine ⟨krealloc_null s n, fun hp => krealloc_zero s ptr hp,
    fun hp hn hb0 => krealloc_nullblock s ptr n hp hn hb0, ?_⟩
  intro hp hn hb0 hfind
  have hmem : b ∈ s.blocks := List.mem_of_find?_eq_some hfind
  have haddr : b.addr = sub64 ptr HEAP_BLOCK_HEADER_SIZE := by
    have := List.find?_some hfind
    simpa [beq_iff_eq] using this
  have hbound := blockBound s.blocks s.hstart s.hend htile hlast b hmem
  have hbnd : s.hstart ≤ sub64 ptr HEAP_BLOCK_HEADER_SIZE ∧
      sub64 ptr HEAP_BLOCK_HEADER_SIZE < s.hend := by
    rw [← haddr]
    rw [HEAP_MIN_BLOCK_SIZE] at hbound
    omega
  constructor
  · intro hfits
    exact krealloc_fits s ptr n b hp hn hb0 hfind hbnd hfits
  · intro hnofit
    constructor
    · intro hw
      exact krealloc_grow_fail s ptr n b hp hn hb0 hfind hbnd hnofit hw
    · intro hw
      refine ⟨krealloc_grow s ptr n q b hp hn hb0 hfind hbnd hnofit hw, ?_⟩
      omega

/-- C8 counterexample: on an arena based at address 0, `kmalloc` returns
the pointer 40, whose genuine allocated block (at address 0) has payload
capacity 16; the claim says `krealloc(40, 16)` returns 40 unchanged, but
the block header address `40 - 40 = 0` fails `is_valid_block`'s NULL
check and `krealloc` returns null with the state untouched. -/
theorem krealloc_null_header_rejected :
    (kmalloc (heap_init 0 0x1000).2 16).1 = some 40 ∧
    (kmalloc (heap_init 0 0x1000).2 16).2 =
      { hstart := 0, hend := 0x1000, hsize := 0x1000, used := 56,
        free := 4040,
        blocks := [{ addr := 0, size := 56, allocated := true },
                   { addr := 56, size := 4040, allocated := false }],
        allocations := 1, frees := 0 } ∧
    findBlock [{ addr := 0, size := 56, allocated := true },
               { addr := 56, size := 4040, allocated := false }]
      (sub64 40 HEAP_BLOCK_HEADER_SIZE) =
      some { addr := 0, size := 56, allocated := true } ∧
    (16 : Nat) ≤ sub64 56 HEAP_BLOCK_HEADER_SIZE ∧
    krealloc
      { hstart := 0, hend := 0x1000, hsize := 0x1000, used := 56,
        free := 4040,
        blocks := [{ addr := 0, size := 56, allocated := true },
                   { addr := 56, size := 4040, allocated := false }],
        allocations := 1, frees := 0 } 40 16 =
      (none,
       { hstart := 0, hend := 0x1000, hsize := 0x1000, used := 56,
         free := 4040,
         blocks := [{ addr := 0, size := 56, allocated := true },
                    { addr := 56, size := 4040, allocated := false }],
         allocations := 1, frees := 0 }, 0) ∧
    (none : Option Nat) ≠ some 40 := by
  refine ⟨by decide, by decide, by decide, by decide, by decide, by decide⟩

/-- C8 witness: on the arena with one 16-byte allocation, `krealloc`
with a fitting size returns the pointer unchanged. -/
theorem krealloc_contract_witness :
    krealloc
      { hstart := 0x100000, hend := 0x101000, hsize := 0x1000, used := 56,
        free := 4040,
        blocks := [{ addr := 0x100000, size := 56, allocated := true },
                   { addr := 0x100038, size := 4040, allocated := false }],
        allocations := 1, frees := 0 } 0x100028 16 =
      (some 0x100028,
       { hstart := 0x100000, hend := 0x101000, hsize := 0x1000, used := 56,
         free := 4040,
         blocks := [{ addr := 0x100000, size := 56, allocated := true },
                    { addr := 0x100038, size := 4040, allocated := false }],
         allocations := 1, frees := 0 }, 0) := by
  have h0 : (kmalloc (heap_init 0x100000 0x1000).2 16).2 =
      { hstart := 0x100000, hend := 0x101000, hsize := 0x1000, used := 56,
        free := 4040,
        blocks := [{ addr := 0x100000, size := 56, allocated := true },
                   { addr := 0x100038, size := 4040, allocated := false }],
        allocations := 1, frees := 0 } := by decide
  have hr := HReach.malloc _ 16 (HReach.init 0x100000 0x1000 (by decide))
  rw [h0] at hr
  exact ((krealloc_contract _ 0x100028 16 0
    { addr := 0x100000, size := 56, allocated := true } hr).2.2.2
    (by decide) (by decide) (by decide) (by decide)).1 (by decide)

/-- C9 (confirmed): `kcalloc` computes `count * size` with 64-bit
wraparound and no overflow check: for `count = 2^63 + 8`, `size = 2`,
whose true product is `2^64 + 16`, it allocates and zero-fills only 16
bytes and returns a non-null pointer. -/
theorem kcalloc_product_wraps :
    kcalloc (heap_init 0x100000 0x1000).2 9223372036854775816 2 =
      (some 0x100028,
       { hstart := 0x100000, hend := 0x101000, hsize := 0x1000, used := 56,
         free := 4040,
         blocks := [{ addr := 0x100000, size := 56, allocated := true },
                    { addr := 0x100038, size := 4040, allocated := false }],
         allocations := 1, frees := 0 }, 16) ∧
    (9223372036854775816 * 2) % U64 = 16 ∧
    (16 : Nat) < 9223372036854775816 * 2 := by
  refine ⟨by decide, by decide, by decide⟩

end FGOS
